import Mathlib

/-!
# imgproxy: scale-on-load, extend, SVG sniffing and the serving layer

A shallow embedding of `processing/scale_on_load.go`, `processing/extend.go`,
`imagemeta/svg.go` and `server.go`.

Conventions of the embedding:

* Go `float64` values are the rationals `x` with `f64 x = x`, where `f64` rounds a real number
  to the nearest float64 (ties to even, gradual underflow); a float operation is the exact
  operation followed by `f64`. Results beyond the finite range (infinities), NaN and
  division by zero are not modelled.
* Go `int` values are integers (`Int`). The conversion `int(x)` of a float truncates toward
  zero; a value outside the `int64` range converts to `-2^63`, the result on amd64 (the
  language leaves it to the implementation).
* Go strings and `[]byte` values are lists of byte values.
* The native image handle (`vips.Image`) is an abstract state; its operations are
  supplied by a record of functions, and every call a step makes on the handle is
  recorded in the step's result.
-/

/-- Go strings and byte slices: sequences of byte values. -/
abbrev Bytes := List Nat

/-- The bytes of an ASCII string literal. -/
def goBytes (s : String) : Bytes := s.toList.map Char.toNat

/-- Exponent of the last mantissa bit of the float64 values around `x`: 52 below the binary
exponent of `x`, which is held at -1022 for the subnormal range. -/
def ulpExp (x : ℚ) : Int := max (Int.log 2 |x|) (-1022) - 52

/-- Nearest integer, ties to the even one. -/
def roundEven (q : ℚ) : Int :=
  if q - ⌊q⌋ < 1 / 2 then ⌊q⌋
  else if 1 / 2 < q - ⌊q⌋ then ⌊q⌋ + 1
  else if ⌊q⌋ % 2 = 0 then ⌊q⌋ else ⌊q⌋ + 1

/-- The float64 nearest to the real number `x`, ties to even: the rounding every float64
operation applies to its exact result. -/
def f64 (x : ℚ) : ℚ := (roundEven (x / 2 ^ ulpExp x) : ℚ) * 2 ^ ulpExp x

/-- The conversion `int(x)` of a `float64`: the fractional part is discarded, and a result
outside the `int64` range becomes `-2^63`. -/
def goInt (x : ℚ) : Int :=
  let t : Int := if 0 ≤ x then ⌊x⌋ else ⌈x⌉
  if -2 ^ 63 ≤ t ∧ t < 2 ^ 63 then t else -2 ^ 63

/-- The function `math.Round`: nearest integer, halves away from zero; the result is exact. -/
def mathRound (x : ℚ) : ℚ := if 0 ≤ x then (⌊x + 1 / 2⌋ : Int) else (⌈x - 1 / 2⌉ : Int)

namespace config

/-- The configuration variables of package `config` read by the embedded code. -/
structure Config where
  DisableShrinkOnLoad : Bool
  DevelopmentErrorsMode : Bool
  Secret : Bytes
  MaxSvgCheckBytes : Nat

end config

namespace imagetype

/-- The image type enumeration `imagetype.Type`. -/
inductive ImageType where
  | Unknown | JPEG | PNG | WEBP | GIF | ICO | SVG | HEIC | AVIF | BMP | TIFF
deriving DecidableEq, Repr

end imagetype

namespace imath

/-- Modelled from the spec: `imath.Round` is defined outside the given sources;
it converts the rounded float to an `int`. -/
def Round (a : ℚ) : Int := goInt (mathRound a)

/-- Modelled from the spec: `imath.Scale` is defined outside the given sources;
`Scale(n, s)` rounds `n * s`, the float64 product of `float64(n)` and `s`. -/
def Scale (a : Int) (scale : ℚ) : Int := Round (f64 (f64 (a : ℚ) * scale))

end imath

namespace processing

open imagetype

/-- Source bytes of the image (`imagedata.ImageData`). -/
structure ImageData where
  Data : Bytes
deriving DecidableEq

/-- The fields of `pipelineContext` that scale-on-load reads or writes. -/
structure pipelineContext where
  trimmed : Bool
  srcWidth : Int
  srcHeight : Int
  imgtype : ImageType
  wscale : ℚ
  hscale : ℚ
deriving DecidableEq

/-- Function `canScaleOnLoad` of `scale_on_load.go`. -/
def canScaleOnLoad (cfg : config.Config) (imgtype : ImageType) (scale : ℚ) : Bool :=
  if imgtype = ImageType.SVG then true
  else if cfg.DisableShrinkOnLoad || decide (scale ≥ 1) then false
  else decide (imgtype = ImageType.JPEG) || decide (imgtype = ImageType.WEBP)

/-- Function `calcJpegShink` of `scale_on_load.go`. -/
def calcJpegShink (scale : ℚ) (_imgtype : ImageType) : Int :=
  let shrink := goInt (f64 (1 / scale))
  if shrink ≥ 8 then 8
  else if shrink ≥ 4 then 4
  else if shrink ≥ 2 then 2
  else 1

/-- The gravity kinds of `options.GravityType`. -/
inductive GravityType where
  | Unknown | Center | North | East | South | West
  | NorthWest | NorthEast | SouthWest | SouthEast | Smart | FocusPoint
deriving DecidableEq, Repr

/-- Gravity specification `options.GravityOptions`: an anchor and its offsets. -/
structure GravityOptions where
  Kind : GravityType
  X : ℚ
  Y : ℚ

/-- Extend settings `options.ExtendOptions`. -/
structure ExtendOptions where
  Enabled : Bool
  Gravity : GravityOptions

/-- The fields of `options.ProcessingOptions` that reach the two steps and their helpers. -/
structure ProcessingOptions where
  Width : Int
  Height : Int
  Dpr : ℚ
  Rotate : Int
  AutoRotate : Bool
  Extend : ExtendOptions

/-- One call of `img.Load(imgdata, shrink, scale, pages)`. -/
structure LoadCall where
  imgdata : ImageData
  shrink : Int
  scale : ℚ
  pages : Int
deriving DecidableEq

/-- One call of `img.Embed(width, height, offX, offY)`. -/
structure EmbedCall where
  width : Int
  height : Int
  offX : Int
  offY : Int
deriving DecidableEq

/-- What a step works against: the operations of the native handle `vips.Image`
(each returns the handle's next state and its error, `none` for `nil`) and the helpers of
package `processing` that are defined outside the given sources. -/
structure Env (Img : Type) where
  Width : Img → Int
  Height : Img → Int
  Load : Img → ImageData → Int → ℚ → Int → Img × Option String
  Embed : Img → Int → Int → Int → Int → Img × Option String
  extractMeta : Img → Int → Bool → Int × Int × Int × Bool
  resultSize : ProcessingOptions → Int × Int
  calcPosition : Int → Int → Int → Int → GravityOptions → Bool → Int × Int

/-- What a step leaves behind: the returned error (`none` for `nil`), the context, the
handle, and the calls of `Load` and `Embed` it made on the handle, in order. -/
structure StepResult (Img : Type) where
  err : Option String
  pctx : pipelineContext
  img : Img
  loads : List LoadCall
  embeds : List EmbedCall

/-- Function `scaleOnLoad` of `scale_on_load.go`. -/
def scaleOnLoad {Img : Type} (cfg : config.Config) (env : Env Img) (pctx : pipelineContext)
    (img : Img) (po : ProcessingOptions) (imgdata : Option ImageData) : StepResult Img :=
  let prescale := max pctx.wscale pctx.hscale
  if pctx.trimmed || decide (prescale = 1) || imgdata.isNone
      || !canScaleOnLoad cfg pctx.imgtype prescale then
    { err := none, pctx := pctx, img := img, loads := [], embeds := [] }
  else
    match imgdata with
    | none => { err := none, pctx := pctx, img := img, loads := [], embeds := [] }
    | some data =>
      let jpegShrink := calcJpegShink prescale pctx.imgtype
      if pctx.imgtype = ImageType.JPEG ∧ jpegShrink = 1 then
        { err := none, pctx := pctx, img := img, loads := [], embeds := [] }
      else
        let call : LoadCall := { imgdata := data, shrink := jpegShrink, scale := prescale, pages := 1 }
        match env.Load img data jpegShrink prescale 1 with
        | (img1, some err) =>
          { err := some err, pctx := pctx, img := img1, loads := [call], embeds := [] }
        | (img1, none) =>
          let dims := env.extractMeta img1 po.Rotate po.AutoRotate
          let newWidth := dims.1
          let newHeight := dims.2.1
          let wscale1 := f64 (f64 (f64 (pctx.srcWidth : ℚ) * pctx.wscale) / f64 (newWidth : ℚ))
          let wscale2 := if newWidth = imath.Scale newWidth wscale1 then 1 else wscale1
          let hscale1 :=
            f64 (f64 (f64 (pctx.srcHeight : ℚ) * pctx.hscale) / f64 (newHeight : ℚ))
          let hscale2 := if newHeight = imath.Scale newHeight hscale1 then 1 else hscale1
          { err := none, pctx := { pctx with wscale := wscale2, hscale := hscale2 },
            img := img1, loads := [call], embeds := [] }

/-- Function `extend` of `extend.go`. -/
def extend {Img : Type} (env : Env Img) (pctx : pipelineContext)
    (img : Img) (po : ProcessingOptions) (_imgdata : Option ImageData) : StepResult Img :=
  let size := env.resultSize po
  let resultWidth := size.1
  let resultHeight := size.2
  if !po.Extend.Enabled
      || (decide (resultWidth ≤ env.Width img) && decide (resultHeight ≤ env.Height img)) then
    { err := none, pctx := pctx, img := img, loads := [], embeds := [] }
  else
    let off := env.calcPosition resultWidth resultHeight (env.Width img) (env.Height img)
      po.Extend.Gravity false
    let r := env.Embed img resultWidth resultHeight off.1 off.2
    { err := r.2, pctx := pctx, img := r.1, loads := [],
      embeds := [{ width := resultWidth, height := resultHeight, offX := off.1, offY := off.2 }] }

/-- Modelled from the spec: `calcPosition` is defined outside the given sources. The gravity
resolution places the inner box at the anchor (centre by default, the named edge for a
directional anchor moved by the gravity offsets, the scaled focus point otherwise) and, unless
overflow is allowed, clamps each offset into `0 .. outer - inner`. -/
def calcPosition (width height innerWidth innerHeight : Int) (gravity : GravityOptions)
    (allowOverflow : Bool) : Int × Int :=
  let offX := imath.Round gravity.X
  let offY := imath.Round gravity.Y
  let centerX := Int.tdiv (width - innerWidth + 1) 2
  let centerY := Int.tdiv (height - innerHeight + 1) 2
  let anchor : Int × Int :=
    match gravity.Kind with
    | GravityType.FocusPoint =>
      (imath.Scale width gravity.X - Int.tdiv innerWidth 2,
       imath.Scale height gravity.Y - Int.tdiv innerHeight 2)
    | GravityType.North => (centerX, offY)
    | GravityType.South => (centerX, height - innerHeight - offY)
    | GravityType.East => (width - innerWidth - offX, centerY)
    | GravityType.West => (offX, centerY)
    | GravityType.NorthEast => (width - innerWidth - offX, offY)
    | GravityType.NorthWest => (offX, offY)
    | GravityType.SouthEast => (width - innerWidth - offX, height - innerHeight - offY)
    | GravityType.SouthWest => (offX, height - innerHeight - offY)
    | _ => (centerX, centerY)
  if allowOverflow then anchor
  else (max 0 (min anchor.1 (width - innerWidth)), max 0 (min anchor.2 (height - innerHeight)))

/-- A concrete handle state for evaluating the steps: just the pixel dimensions. -/
structure Dims where
  w : Int
  h : Int
deriving DecidableEq

/-- A concrete environment over `Dims`: `Load` divides the dimensions by a shrink above 1 and
otherwise scales them by `scale`, `Embed` resizes to the canvas, neither fails; the target
size is `Width` by `Height`. -/
def dimsEnv : Env Dims where
  Width := fun i => i.w
  Height := fun i => i.h
  Load := fun i _ s sc _ =>
    if 1 < s then ({ w := Int.tdiv i.w s, h := Int.tdiv i.h s }, none)
    else ({ w := imath.Scale i.w sc, h := imath.Scale i.h sc }, none)
  Embed := fun _ w h _ _ => ({ w := w, h := h }, none)
  extractMeta := fun i _ _ => (i.w, i.h, 0, false)
  resultSize := fun po => (po.Width, po.Height)
  calcPosition := calcPosition

end processing

namespace xml

/-- Token kinds of the XML lexer (`xml.TokenType`). -/
inductive TokenType where
  | ErrorToken | CommentToken | DOCTYPEToken | CDATAToken | StartTagToken | StartTagPIToken
  | StartTagCloseToken | StartTagCloseVoidToken | StartTagClosePIToken | EndTagToken
  | AttributeToken | TextToken
deriving DecidableEq, Repr

/-- The error a lexer reports through `Err()`: end of input (`io.EOF`) or another error. -/
inductive ScanError where
  | EOF
  | Other (msg : String)
deriving DecidableEq, Repr

/-- A lexer over a bounded input, as the token sequence it yields: `tokens` are the results of
the successive `Next()` calls, each with the value `Text()` has after it; once they are used up
`Next()` returns `ErrorToken`. `Err()` is the error the input ended with. -/
structure Lexer where
  tokens : List (TokenType × Bytes)
  err : ScanError

end xml

namespace imagemeta

/-- ASCII part of `strings.ToLower` on one byte; no byte sequence outside ASCII is mapped to
the letters of `svg`, so this is all the comparison in `IsSVG` depends on. -/
def lowerByte (b : Nat) : Nat := if 65 ≤ b ∧ b ≤ 90 then b + 32 else b

/-- Function `strings.ToLower`, on ASCII. -/
def ToLower (s : Bytes) : Bytes := s.map lowerByte

/-- The loop of `IsSVG` over the tokens still to come. -/
def IsSVG.loop (err : xml.ScanError) : List (xml.TokenType × Bytes) → Bool × Option xml.ScanError
  | [] => if err ≠ xml.ScanError.EOF then (false, some err) else (false, none)
  | (tt, text) :: rest =>
    match tt with
    | xml.TokenType.ErrorToken =>
      if err ≠ xml.ScanError.EOF then (false, some err) else (false, none)
    | xml.TokenType.StartTagToken => (decide (ToLower text = goBytes "svg"), none)
    | _ => IsSVG.loop err rest

/-- Function `IsSVG` of `svg.go`: `NewLexer` is the lexer constructor applied to the reader
limited to `config.MaxSvgCheckBytes` bytes. -/
def IsSVG (cfg : config.Config) (NewLexer : Bytes → xml.Lexer) (r : Bytes) :
    Bool × Option xml.ScanError :=
  let maxBytes := cfg.MaxSvgCheckBytes
  let l := NewLexer (r.take maxBytes)
  IsSVG.loop l.err l.tokens

/-- A token that ends the loop of `IsSVG`: a start tag or an error token. -/
def stops (t : xml.TokenType × Bytes) : Prop :=
  t.1 = xml.TokenType.StartTagToken ∨ t.1 = xml.TokenType.ErrorToken

/-- Case-insensitive equality with `svg`, byte by byte. -/
def eqFoldSvg (name : Bytes) : Prop :=
  ∃ a b c, name = [a, b, c] ∧ (a = 115 ∨ a = 83) ∧ (b = 118 ∨ b = 86) ∧ (c = 103 ∨ c = 71)

end imagemeta

namespace ierrors

/-- The error record `ierrors.Error`. -/
structure Error where
  StatusCode : Int
  Message : String
  PublicMessage : String
  Unexpected : Bool
deriving DecidableEq, Repr

/-- Modelled from the spec: `ierrors.New` is defined outside the given sources; it builds an
expected error record from a status, an internal message and a public message. -/
def New (status : Int) (msg : String) (pub : String) : Error :=
  { StatusCode := status, Message := msg, PublicMessage := pub, Unexpected := false }

end ierrors

namespace subtle

/-- Function `subtle.ConstantTimeCompare` of the Go standard library: 1 when the slices have
equal length and equal contents, 0 otherwise; the bytes are folded with xor and or. -/
def ConstantTimeCompare (x y : Bytes) : Nat :=
  if x.length ≠ y.length then 0
  else if (List.zipWith Nat.xor x y).foldl Nat.lor 0 = 0 then 1 else 0

end subtle

namespace server

/-- The part of `http.Request` the server code reads: the value of
`r.Header.Get("Authorization")`, empty when the header is absent. -/
structure Request where
  Authorization : Bytes
deriving DecidableEq

/-- Variable `errInvalidSecret` of `server.go`. -/
def errInvalidSecret : ierrors.Error := ierrors.New 403 "Invalid secret" "Forbidden"

/-- How a call of a wrapped route handler ends: the inner handler was called and produced
`a`, or the wrapper panicked with an error. -/
inductive Outcome (α : Type) where
  | handled (a : α)
  | panicked (e : ierrors.Error)

/-- Function `withSecret` of `server.go`; `h reqID r` is what the inner handler does when it
is called with the request. -/
def withSecret {α : Type} (cfg : config.Config) (h : String → Request → α) :
    String → Request → Outcome α :=
  if cfg.Secret.length = 0 then fun reqID r => Outcome.handled (h reqID r)
  else
    let authHeader := goBytes "Bearer " ++ cfg.Secret
    fun reqID r =>
      if subtle.ConstantTimeCompare r.Authorization authHeader = 1 then
        Outcome.handled (h reqID r)
      else Outcome.panicked errInvalidSecret

/-- A call on the `http.ResponseWriter`. -/
inductive RwCall where
  | WriteHeader (status : Int)
  | Write (body : String)
deriving DecidableEq, Repr

/-- What `handlePanic` does: the calls of `errorreport.Report`, of `router.LogResponse` and
on the response writer, each in order. -/
structure PanicEffects (E : Type) where
  reports : List (E × Request)
  logs : List (String × Request × Int × ierrors.Error)
  rw : List RwCall

/-- Function `handlePanic` of `server.go`; `Wrap` is `ierrors.Wrap`, defined outside the
given sources. -/
def handlePanic {E : Type} (cfg : config.Config) (Wrap : E → Int → ierrors.Error)
    (reqID : String) (r : Request) (err : E) : PanicEffects E :=
  let ierr := Wrap err 3
  let reports := if ierr.Unexpected then [(err, r)] else []
  let logs := [(reqID, r, ierr.StatusCode, ierr)]
  let body := if cfg.DevelopmentErrorsMode then ierr.Message else ierr.PublicMessage
  { reports := reports, logs := logs, rw := [RwCall.WriteHeader ierr.StatusCode, RwCall.Write body] }

/-- One call on a response writer whose status and body so far are `st`: the first
`WriteHeader` fixes the status, a `Write` before any `WriteHeader` fixes it to 200, and the
written bodies are concatenated. -/
def respond (st : Option Int × String) : RwCall → Option Int × String
  | RwCall.WriteHeader s => (if st.1.isNone then some s else st.1, st.2)
  | RwCall.Write b => (if st.1.isNone then some 200 else st.1, st.2 ++ b)

/-- The status and body a fresh `http.ResponseWriter` holds after a sequence of calls. -/
def response (calls : List RwCall) : Option Int × String :=
  calls.foldl respond (none, "")

end server

namespace examples

open processing imagetype

/-- A configuration with shrink-on-load enabled and the secret `s3cr3t`. -/
def cfg : config.Config :=
  { DisableShrinkOnLoad := false, DevelopmentErrorsMode := false,
    Secret := goBytes "s3cr3t", MaxSvgCheckBytes := 32768 }

/-- Options asking for a 10 by 5 canvas with extend enabled and centre gravity. -/
def po : ProcessingOptions :=
  { Width := 10, Height := 5, Dpr := 1, Rotate := 0, AutoRotate := true,
    Extend := { Enabled := true, Gravity := { Kind := GravityType.Center, X := 0, Y := 0 } } }

/-- Some source bytes. -/
def data : ImageData := { Data := [82, 73, 70, 70] }

/-- A 100 by 100 WEBP source to be scaled by 0.75 on both axes. -/
def webpCtx : pipelineContext :=
  { trimmed := false, srcWidth := 100, srcHeight := 100, imgtype := ImageType.WEBP,
    wscale := 3 / 4, hscale := 3 / 4 }

/-- A 100 by 100 JPEG source to be scaled by 0.75 on both axes. -/
def jpegCtx : pipelineContext :=
  { trimmed := false, srcWidth := 100, srcHeight := 100, imgtype := ImageType.JPEG,
    wscale := 3 / 4, hscale := 3 / 4 }

/-- A 59 by 59 JPEG source to be scaled by 0.5 on both axes. -/
def oddCtx : pipelineContext :=
  { trimmed := false, srcWidth := 59, srcHeight := 59, imgtype := ImageType.JPEG,
    wscale := 1 / 2, hscale := 1 / 2 }

/-- A 100 by 100 JPEG source to be scaled by 1/4 on both axes. -/
def quarterCtx : pipelineContext :=
  { trimmed := false, srcWidth := 100, srcHeight := 100, imgtype := ImageType.JPEG,
    wscale := 1 / 4, hscale := 1 / 4 }

/-- A context that is already trimmed. -/
def trimmedCtx : pipelineContext :=
  { trimmed := true, srcWidth := 100, srcHeight := 100, imgtype := ImageType.JPEG,
    wscale := 1 / 4, hscale := 1 / 4 }

end examples


/-! ## Rounding to float64 -/

/-- Integers are fixed by rounding. -/
theorem roundEven_intCast (n : Int) : roundEven (n : ℚ) = n := by
  unfold roundEven
  simp

theorem floor_le_roundEven (q : ℚ) : ⌊q⌋ ≤ roundEven q := by
  unfold roundEven
  split_ifs <;> omega

theorem roundEven_le_floor_add_one (q : ℚ) : roundEven q ≤ ⌊q⌋ + 1 := by
  unfold roundEven
  split_ifs <;> omega

/-- Rounding to the nearest integer is monotone. -/
theorem roundEven_mono {x y : ℚ} (h : x ≤ y) : roundEven x ≤ roundEven y := by
  have hf : ⌊x⌋ ≤ ⌊y⌋ := Int.floor_mono h
  rcases lt_or_eq_of_le hf with hlt | heq
  · have h1 := roundEven_le_floor_add_one x
    have h2 := floor_le_roundEven y
    omega
  · unfold roundEven
    rw [heq]
    have hxy : x - (⌊y⌋ : ℚ) ≤ y - (⌊y⌋ : ℚ) := by linarith
    split_ifs <;> first | omega | (exfalso; linarith)

/-- A value less than half above an integer rounds down to it. -/
theorem roundEven_of_lt_half {q : ℚ} {f : Int} (h1 : (f : ℚ) ≤ q) (h2 : q < f + 1 / 2) :
    roundEven q = f := by
  have hfl : ⌊q⌋ = f := by
    rw [Int.floor_eq_iff]
    constructor
    · exact h1
    · linarith
  unfold roundEven
  rw [hfl, if_pos (by linarith)]

/-- The binary exponent of a value between two consecutive powers of two. -/
theorem log_two_eq {x : ℚ} {e : Int} (h1 : (2 : ℚ) ^ e ≤ x) (h2 : x < (2 : ℚ) ^ (e + 1)) :
    Int.log 2 x = e := by
  have hpos : (0 : ℚ) < x := lt_of_lt_of_le (by positivity) h1
  have ha : e ≤ Int.log 2 x := by
    rw [← Int.zpow_le_iff_le_log (by norm_num) hpos]
    simpa using h1
  have hb : Int.log 2 x < e + 1 := by
    rw [← Int.lt_zpow_iff_log_lt (by norm_num) hpos]
    simpa using h2
  omega

theorem zpow_log_le {x : ℚ} (hx : 0 < x) : (2 : ℚ) ^ Int.log 2 x ≤ x := by
  simpa using Int.zpow_log_le_self (b := 2) (by norm_num) hx

theorem lt_zpow_log_succ (x : ℚ) : x < (2 : ℚ) ^ (Int.log 2 x + 1) := by
  simpa using Int.lt_zpow_succ_log_self (b := 2) (by norm_num) x

theorem ulpExp_eq {x : ℚ} {e : Int} (h1 : (2 : ℚ) ^ e ≤ x) (h2 : x < (2 : ℚ) ^ (e + 1))
    (he : -1022 ≤ e) : ulpExp x = e - 52 := by
  have hpos : (0 : ℚ) < x := lt_of_lt_of_le (by positivity) h1
  unfold ulpExp
  rw [abs_of_pos hpos, log_two_eq h1 h2, max_eq_left he]

/-- The nearest float64 of a value in the normal range, from its exponent and mantissa. -/
theorem f64_eq {x : ℚ} {e m : Int} (h1 : (2 : ℚ) ^ e ≤ x) (h2 : x < (2 : ℚ) ^ (e + 1))
    (he : -1022 ≤ e) (hm : roundEven (x / 2 ^ (e - 52)) = m) :
    f64 x = (m : ℚ) * 2 ^ (e - 52) := by
  unfold f64
  rw [ulpExp_eq h1 h2 he, hm]

/-- A value that is a whole number of units in the last place is a float64. -/
theorem f64_of_int_quot {x : ℚ} {k : Int} (h : x / 2 ^ ulpExp x = k) : f64 x = x := by
  unfold f64
  rw [h, roundEven_intCast, ← h]
  have : (2 : ℚ) ^ ulpExp x ≠ 0 := by positivity
  field_simp

/-- Rounding does not pass the next power of two. -/
theorem f64_le_zpow {x : ℚ} (hx : 0 < x) :
    f64 x ≤ (2 : ℚ) ^ (max (Int.log 2 x) (-1022) + 1) := by
  have hu : ulpExp x = max (Int.log 2 x) (-1022) - 52 := by
    unfold ulpExp
    rw [abs_of_pos hx]
  have hlt : x < (2 : ℚ) ^ (max (Int.log 2 x) (-1022) + 1) :=
    lt_of_lt_of_le (lt_zpow_log_succ x)
      (zpow_le_zpow_right₀ (by norm_num) (by have := le_max_left (Int.log 2 x) (-1022); omega))
  have hsplit : (2 : ℚ) ^ (max (Int.log 2 x) (-1022) + 1) =
      ((2 ^ 53 : Int) : ℚ) * 2 ^ ulpExp x := by
    rw [hu]
    have : max (Int.log 2 x) (-1022) + 1 = 53 + (max (Int.log 2 x) (-1022) - 52) := by ring
    rw [this, zpow_add₀ (by norm_num)]
    norm_num
  have hpos : (0 : ℚ) < 2 ^ ulpExp x := by positivity
  have hq : x / 2 ^ ulpExp x ≤ ((2 ^ 53 : Int) : ℚ) := by
    rw [div_le_iff₀ hpos, ← hsplit]
    exact le_of_lt hlt
  have hr : roundEven (x / 2 ^ ulpExp x) ≤ 2 ^ 53 := by
    have := roundEven_mono hq
    rwa [roundEven_intCast] at this
  unfold f64
  rw [hsplit]
  exact mul_le_mul_of_nonneg_right (by exact_mod_cast hr) (le_of_lt hpos)

/-- Rounding does not fall below the power of two under the value. -/
theorem zpow_le_f64 {x : ℚ} (hx : 0 < x) (hl : -1022 ≤ Int.log 2 x) :
    (2 : ℚ) ^ Int.log 2 x ≤ f64 x := by
  have hu : ulpExp x = Int.log 2 x - 52 := by
    unfold ulpExp
    rw [abs_of_pos hx, max_eq_left hl]
  have hsplit : (2 : ℚ) ^ Int.log 2 x = ((2 ^ 52 : Int) : ℚ) * 2 ^ ulpExp x := by
    rw [hu]
    have : Int.log 2 x = 52 + (Int.log 2 x - 52) := by ring
    nth_rewrite 1 [this]
    rw [zpow_add₀ (by norm_num)]
    norm_num
  have hpos : (0 : ℚ) < 2 ^ ulpExp x := by positivity
  have hq : ((2 ^ 52 : Int) : ℚ) ≤ x / 2 ^ ulpExp x := by
    rw [le_div_iff₀ hpos, ← hsplit]
    exact zpow_log_le hx
  have hr : 2 ^ 52 ≤ roundEven (x / 2 ^ ulpExp x) := by
    have := roundEven_mono hq
    rwa [roundEven_intCast] at this
  unfold f64
  rw [hsplit]
  exact mul_le_mul_of_nonneg_right (by exact_mod_cast hr) (le_of_lt hpos)

/-- Rounding to float64 is monotone on positive values. -/
theorem f64_mono {x y : ℚ} (hx : 0 < x) (hxy : x ≤ y) : f64 x ≤ f64 y := by
  have hy : 0 < y := lt_of_lt_of_le hx hxy
  have hlog : Int.log 2 x ≤ Int.log 2 y := Int.log_mono_right hx hxy
  have hux : ulpExp x = max (Int.log 2 x) (-1022) - 52 := by
    unfold ulpExp
    rw [abs_of_pos hx]
  have huy : ulpExp y = max (Int.log 2 y) (-1022) - 52 := by
    unfold ulpExp
    rw [abs_of_pos hy]
  by_cases heq : max (Int.log 2 x) (-1022) = max (Int.log 2 y) (-1022)
  · have hu : ulpExp x = ulpExp y := by rw [hux, huy, heq]
    have hpos : (0 : ℚ) < 2 ^ ulpExp y := by positivity
    unfold f64
    rw [hu]
    apply mul_le_mul_of_nonneg_right _ (le_of_lt hpos)
    have : x / 2 ^ ulpExp y ≤ y / 2 ^ ulpExp y := div_le_div_of_nonneg_right hxy (le_of_lt hpos)
    exact_mod_cast roundEven_mono this
  · have hlt : max (Int.log 2 x) (-1022) + 1 ≤ Int.log 2 y := by
      rcases le_total (Int.log 2 x) (-1022) with h | h
      · rw [max_eq_right h] at heq ⊢
        rcases le_total (Int.log 2 y) (-1022) with h' | h'
        · rw [max_eq_right h'] at heq
          exact absurd rfl heq
        · rw [max_eq_left h'] at heq
          omega
      · rw [max_eq_left h] at heq ⊢
        have h' : -1022 ≤ Int.log 2 y := le_trans h hlog
        rw [max_eq_left h'] at heq
        omega
    have hl : -1022 ≤ Int.log 2 y := by
      have := le_max_right (Int.log 2 x) (-1022)
      omega
    calc f64 x ≤ (2 : ℚ) ^ (max (Int.log 2 x) (-1022) + 1) := f64_le_zpow hx
      _ ≤ (2 : ℚ) ^ Int.log 2 y := zpow_le_zpow_right₀ (by norm_num) hlt
      _ ≤ f64 y := zpow_le_f64 hy hl

/-- Natural numbers up to `2^53` are float64 values. -/
theorem f64_natCast {n : Nat} (hn : n ≤ 2 ^ 53) : f64 (n : ℚ) = n := by
  rcases Nat.eq_zero_or_pos n with rfl | hpos
  · unfold f64
    simp [roundEven]
  · by_cases htop : n = 2 ^ 53
    · subst htop
      have h1 : (2 : ℚ) ^ (53 : Int) ≤ ((2 ^ 53 : Nat) : ℚ) := by norm_num
      have h2 : ((2 ^ 53 : Nat) : ℚ) < (2 : ℚ) ^ ((53 : Int) + 1) := by norm_num
      apply f64_of_int_quot (k := 2 ^ 52)
      rw [ulpExp_eq h1 h2 (by norm_num)]
      norm_num
    · have hlt : n < 2 ^ 53 := lt_of_le_of_ne hn htop
      have hq : (0 : ℚ) < (n : ℚ) := by exact_mod_cast hpos
      have hlog : Int.log 2 (n : ℚ) ≤ 52 := by
        have : Int.log 2 (n : ℚ) < 53 := by
          rw [← Int.lt_zpow_iff_log_lt (by norm_num) hq]
          have h3 : (n : ℚ) < ((2 ^ 53 : Nat) : ℚ) := by exact_mod_cast hlt
          have h4 : (((2 : Nat) : ℚ)) ^ (53 : Int) = ((2 ^ 53 : Nat) : ℚ) := by norm_num
          rw [h4]
          exact h3
        omega
      have hlog0 : 0 ≤ Int.log 2 (n : ℚ) := by
        rw [← Int.zpow_le_iff_le_log (by norm_num) hq]
        have : (1 : ℚ) ≤ (n : ℚ) := by exact_mod_cast hpos
        simpa using this
      have hu : ulpExp (n : ℚ) = Int.log 2 (n : ℚ) - 52 := by
        unfold ulpExp
        rw [abs_of_pos hq, max_eq_left (by omega)]
      obtain ⟨d, hd⟩ : ∃ d : Nat, ulpExp (n : ℚ) = -(d : Int) :=
        ⟨(52 - Int.log 2 (n : ℚ)).toNat, by rw [hu]; omega⟩
      apply f64_of_int_quot (k := (n : Int) * 2 ^ d)
      rw [hd, zpow_neg, zpow_natCast]
      push_cast
      field_simp

theorem zpow_split (j : Int) (c : Int) : (2 : ℚ) ^ (j + c) = 2 ^ c * 2 ^ j := by
  rw [zpow_add₀ (by norm_num), mul_comm]

/-- A 53-bit mantissa times a power of two in range is a float64 value. -/
theorem f64_of_mantissa {x : ℚ} {m j : Int} (hx : x = (m : ℚ) * 2 ^ j)
    (h1 : 2 ^ 52 ≤ m) (h2 : m < 2 ^ 53) (hj : -1074 ≤ j) : f64 x = x := by
  have hpos : (0 : ℚ) < 2 ^ j := by positivity
  have ha : (2 : ℚ) ^ (j + 52) ≤ x := by
    rw [zpow_split, hx]
    apply mul_le_mul_of_nonneg_right _ (le_of_lt hpos)
    have : ((2 ^ 52 : Int) : ℚ) ≤ (m : ℚ) := by exact_mod_cast h1
    norm_num at this ⊢
    exact this
  have hb : x < (2 : ℚ) ^ (j + 52 + 1) := by
    have : j + 52 + 1 = j + 53 := by ring
    rw [this, zpow_split, hx]
    apply mul_lt_mul_of_pos_right _ hpos
    have : (m : ℚ) < ((2 ^ 53 : Int) : ℚ) := by exact_mod_cast h2
    norm_num at this ⊢
    exact this
  apply f64_of_int_quot (k := m)
  rw [ulpExp_eq ha hb (by omega), hx]
  have : j + 52 - 52 = j := by ring
  rw [this]
  field_simp

/-- A float64 above a power of two is at least the next float64 after that power. -/
theorem f64_succ {s : ℚ} {j : Int} (hf : f64 s = s) (hs : (2 : ℚ) ^ j < s) (hj : -1022 ≤ j) :
    (2 : ℚ) ^ j + 2 ^ (j - 52) ≤ s := by
  have hpos : (0 : ℚ) < s := lt_trans (by positivity) hs
  have hL : j ≤ Int.log 2 s := by
    rw [← Int.zpow_le_iff_le_log (by norm_num) hpos]
    simpa using le_of_lt hs
  have hsmall : (2 : ℚ) ^ (j - 52) ≤ 2 ^ j := zpow_le_zpow_right₀ (by norm_num) (by omega)
  rcases lt_or_eq_of_le hL with hlt | heq
  · have h1 : (2 : ℚ) ^ (j + 1) ≤ 2 ^ Int.log 2 s :=
      zpow_le_zpow_right₀ (by norm_num) (by omega)
    have h2 := zpow_log_le hpos
    have h3 : (2 : ℚ) ^ (j + 1) = 2 * 2 ^ j := by
      rw [zpow_split]
      norm_num
    linarith
  · have hu : ulpExp s = j - 52 := by
      unfold ulpExp
      rw [abs_of_pos hpos, ← heq, max_eq_left hj]
    have hup : (0 : ℚ) < 2 ^ (j - 52) := by positivity
    have hj2 : (2 : ℚ) ^ j = 2 ^ 52 * 2 ^ (j - 52) := by
      have : j = (j - 52) + 52 := by ring
      nth_rewrite 1 [this]
      rw [zpow_split]
      norm_num
    have hval : s = (roundEven (s / 2 ^ (j - 52)) : ℚ) * 2 ^ (j - 52) := by
      have := hf
      unfold f64 at this
      rw [hu] at this
      exact this.symm
    have hm : (2 : ℚ) ^ 52 < (roundEven (s / 2 ^ (j - 52)) : ℚ) := by
      rw [hval, hj2] at hs
      exact lt_of_mul_lt_mul_right hs (le_of_lt hup)
    have hm2 : (2 : Int) ^ 52 + 1 ≤ roundEven (s / 2 ^ (j - 52)) := by
      have : ((2 ^ 52 : Int) : ℚ) < (roundEven (s / 2 ^ (j - 52)) : ℚ) := by
        norm_num at hm ⊢
        exact hm
      have := Int.cast_lt.mp this
      omega
    have hm3 : ((2 : ℚ) ^ 52 + 1) ≤ (roundEven (s / 2 ^ (j - 52)) : ℚ) := by
      have : (((2 : Int) ^ 52 + 1 : Int) : ℚ) ≤ (roundEven (s / 2 ^ (j - 52)) : ℚ) :=
        Int.cast_le.mpr hm2
      norm_num at this ⊢
      exact this
    rw [hval, hj2]
    calc (2 : ℚ) ^ 52 * 2 ^ (j - 52) + 2 ^ (j - 52) = (2 ^ 52 + 1) * 2 ^ (j - 52) := by ring
      _ ≤ _ := mul_le_mul_of_nonneg_right hm3 (le_of_lt hup)

/-- The conversion to `int` of a nonnegative float below `2^63` is its floor. -/
theorem goInt_of_nonneg {x : ℚ} (h0 : 0 ≤ x) (h1 : x < 2 ^ 63) : goInt x = ⌊x⌋ := by
  have hlo : (-2 : Int) ^ 63 ≤ ⌊x⌋ := by
    have : (0 : Int) ≤ ⌊x⌋ := Int.floor_nonneg.mpr h0
    omega
  have hhi : ⌊x⌋ < (2 : Int) ^ 63 := by
    rw [Int.floor_lt]
    norm_num at h1 ⊢
    exact h1
  unfold goInt
  simp only [h0, if_true]
  rw [if_pos ⟨by omega, hhi⟩]

/-- The float64 quotient `1 / s` of a float64 `s` above `2^-k` stays at or below the last
float64 before `2^k`. -/
theorem f64_inv_le {s : ℚ} {k : Int} (hf : f64 s = s) (hk0 : 0 ≤ k) (hk : k ≤ 1022)
    (hs : (2 : ℚ) ^ (-k) < s) : f64 (1 / s) ≤ ((2 ^ 53 - 1 : Int) : ℚ) * 2 ^ (k - 53) := by
  have hpos : (0 : ℚ) < s := lt_trans (by positivity) hs
  have hsucc := f64_succ hf hs (by omega)
  have hP : f64 (((2 ^ 53 - 1 : Int) : ℚ) * 2 ^ (k - 53)) =
      ((2 ^ 53 - 1 : Int) : ℚ) * 2 ^ (k - 53) :=
    f64_of_mantissa rfl (by norm_num) (by norm_num) (by omega)
  rw [← hP]
  apply f64_mono (by positivity)
  rw [div_le_iff₀ hpos]
  have h105 : (2 : ℚ) ^ (k - 53) * 2 ^ (-k - 52) = 1 / 2 ^ 105 := by
    rw [← zpow_add₀ (by norm_num)]
    have : k - 53 + (-k - 52) = -105 := by ring
    rw [this]
    norm_num
  have h52 : (2 : ℚ) ^ (-k) = 2 ^ 52 * 2 ^ (-k - 52) := by
    have : -k = (-k - 52) + 52 := by ring
    nth_rewrite 1 [this]
    rw [zpow_split]
    norm_num
  have hup : (0 : ℚ) ≤ ((2 ^ 53 - 1 : Int) : ℚ) * 2 ^ (k - 53) := by
    apply mul_nonneg _ (by positivity)
    norm_num
  calc (1 : ℚ) ≤ ((2 ^ 53 - 1 : Int) : ℚ) * (2 ^ 52 + 1) * (1 / 2 ^ 105) := by norm_num
    _ = ((2 ^ 53 - 1 : Int) : ℚ) * 2 ^ (k - 53) * (2 ^ (-k) + 2 ^ (-k - 52)) := by
        rw [← h105, h52]
        ring
    _ ≤ ((2 ^ 53 - 1 : Int) : ℚ) * 2 ^ (k - 53) * s := mul_le_mul_of_nonneg_left hsucc hup

/-- For a float64 scale in `(2^-63, 1)` the truncated float64 quotient reaches a power of two
exactly when the real quotient does. -/
theorem le_shrink_iff {s : ℚ} (hf : f64 s = s) (h0 : 1 / 2 ^ 63 < s) (h1 : s < 1)
    {K : Nat} {k : Int} (hK : (K : ℚ) = 2 ^ k) (hk0 : 0 ≤ k) (hk : k ≤ 53) :
    (K : Int) ≤ goInt (f64 (1 / s)) ↔ (K : ℚ) ≤ 1 / s := by
  have hpos : (0 : ℚ) < s := lt_trans (by positivity) h0
  have hx1 : (1 : ℚ) ≤ 1 / s := by
    rw [le_div_iff₀ hpos]
    linarith
  have hone : f64 (1 : ℚ) = 1 := by
    have := f64_natCast (n := 1) (by norm_num)
    simpa using this
  have hy1 : (1 : ℚ) ≤ f64 (1 / s) := by
    have := f64_mono (by norm_num) hx1
    rwa [hone] at this
  have h63 : (2 : ℚ) ^ (-(63 : Int)) < s := by
    have : (2 : ℚ) ^ (-(63 : Int)) = 1 / 2 ^ 63 := by norm_num
    rw [this]
    exact h0
  have hy2 : f64 (1 / s) < 2 ^ 63 := by
    have := f64_inv_le hf (by norm_num) (by norm_num) h63
    have hlt : ((2 ^ 53 - 1 : Int) : ℚ) * 2 ^ ((63 : Int) - 53) < 2 ^ 63 := by norm_num
    exact lt_of_le_of_lt this hlt
  rw [goInt_of_nonneg (by linarith) hy2, Int.le_floor]
  have hcast : (((K : Int)) : ℚ) = (K : ℚ) := by push_cast; rfl
  rw [hcast]
  constructor
  · intro hle
    by_contra hcon
    have hlt : 1 / s < (2 : ℚ) ^ k := by
      rw [← hK]
      exact not_le.mp hcon
    have hk2 : (2 : ℚ) ^ (-k) < s := by
      rw [div_lt_iff₀ hpos] at hlt
      rw [zpow_neg, inv_eq_one_div, div_lt_iff₀ (by positivity)]
      linarith
    have hb := f64_inv_le hf hk0 (by omega) hk2
    have hlt2 : ((2 ^ 53 - 1 : Int) : ℚ) * 2 ^ (k - 53) < 2 ^ k := by
      have h53 : (2 : ℚ) ^ k = 2 ^ 53 * 2 ^ (k - 53) := by
        have : k = (k - 53) + 53 := by ring
        nth_rewrite 1 [this]
        rw [zpow_split]
        norm_num
      rw [h53]
      apply mul_lt_mul_of_pos_right _ (by positivity)
      norm_num
    rw [hK] at hle
    exact absurd (lt_of_le_of_lt (le_trans hle hb) hlt2) (lt_irrefl _)
  · intro hle
    have hKpos : (0 : ℚ) < (K : ℚ) := by
      rw [hK]
      positivity
    have hK53 : K ≤ 2 ^ 53 := by
      have : (K : ℚ) ≤ ((2 ^ 53 : Nat) : ℚ) := by
        rw [hK]
        have : (2 : ℚ) ^ k ≤ 2 ^ (53 : Int) := zpow_le_zpow_right₀ (by norm_num) hk
        norm_num at this ⊢
        exact this
      exact_mod_cast this
    have := f64_mono hKpos hle
    rwa [f64_natCast hK53] at this

namespace processing

open imagetype

/-- For a float64 scale in `(2^-63, 1)` the divisor is in `{1, 2, 4, 8}`, is at most
`1 / scale`, and no other element at most `1 / scale` exceeds it. -/
theorem calcJpegShink_greatest (scale : ℚ) (imgtype : ImageType)
    (hf : f64 scale = scale) (h0 : 1 / 2 ^ 63 < scale) (h1 : scale < 1) :
    calcJpegShink scale imgtype ∈ [1, 2, 4, 8] ∧
    ((calcJpegShink scale imgtype : Int) : ℚ) ≤ 1 / scale ∧
    ∀ e : Int, e ∈ [1, 2, 4, 8] → (e : ℚ) ≤ 1 / scale → e ≤ calcJpegShink scale imgtype := by
  have hpos : (0 : ℚ) < scale := lt_trans (by positivity) h0
  have hone : (1 : ℚ) ≤ 1 / scale := by
    rw [le_div_iff₀ hpos]; linarith
  have h8 : (8 : Int) ≤ goInt (f64 (1 / scale)) ↔ (8 : ℚ) ≤ 1 / scale := by
    have := le_shrink_iff hf h0 h1 (K := 8) (k := 3) (by norm_num) (by norm_num) (by norm_num)
    simpa using this
  have h4 : (4 : Int) ≤ goInt (f64 (1 / scale)) ↔ (4 : ℚ) ≤ 1 / scale := by
    have := le_shrink_iff hf h0 h1 (K := 4) (k := 2) (by norm_num) (by norm_num) (by norm_num)
    simpa using this
  have h2 : (2 : Int) ≤ goInt (f64 (1 / scale)) ↔ (2 : ℚ) ≤ 1 / scale := by
    have := le_shrink_iff hf h0 h1 (K := 2) (k := 1) (by norm_num) (by norm_num) (by norm_num)
    simpa using this
  simp only [calcJpegShink, ge_iff_le]
  by_cases c8 : (8 : Int) ≤ goInt (f64 (1 / scale))
  · have := h8.mp c8
    simp only [c8, if_true]
    refine ⟨by simp, by exact_mod_cast this, ?_⟩
    intro e he _
    simp at he
    rcases he with rfl | rfl | rfl | rfl <;> decide
  · have n8 : ¬ ((8 : Int) : ℚ) ≤ 1 / scale := fun h => c8 (h8.mpr (by exact_mod_cast h))
    simp only [c8, if_false]
    by_cases c4 : (4 : Int) ≤ goInt (f64 (1 / scale))
    · have := h4.mp c4
      simp only [c4, if_true]
      refine ⟨by simp, by exact_mod_cast this, ?_⟩
      intro e he hle
      simp at he
      rcases he with rfl | rfl | rfl | rfl
      · decide
      · decide
      · decide
      · exact absurd hle n8
    · have n4 : ¬ ((4 : Int) : ℚ) ≤ 1 / scale := fun h => c4 (h4.mpr (by exact_mod_cast h))
      simp only [c4, if_false]
      by_cases c2 : (2 : Int) ≤ goInt (f64 (1 / scale))
      · have := h2.mp c2
        simp only [c2, if_true]
        refine ⟨by simp, by exact_mod_cast this, ?_⟩
        intro e he hle
        simp at he
        rcases he with rfl | rfl | rfl | rfl
        · decide
        · decide
        · exact absurd hle n4
        · exact absurd hle n8
      · have n2 : ¬ ((2 : Int) : ℚ) ≤ 1 / scale := fun h => c2 (h2.mpr (by exact_mod_cast h))
        simp only [c2, if_false]
        refine ⟨by simp, by exact_mod_cast hone, ?_⟩
        intro e he hle
        simp at he
        rcases he with rfl | rfl | rfl | rfl
        · decide
        · exact absurd hle n2
        · exact absurd hle n4
        · exact absurd hle n8

/-- C1 fails as stated: `2^-63` is a float64 scale in `(0, 1)`, the quotient `1 / scale` is
`2^63`, outside the `int64` range, the conversion gives `-2^63` and the divisor is 1, although
8 does not exceed `1 / scale`. -/
theorem calcJpegShink_tiny_scale :
    f64 (1 / 2 ^ 63) = 1 / 2 ^ 63 ∧ (0 : ℚ) < 1 / 2 ^ 63 ∧ (1 / 2 ^ 63 : ℚ) < 1 ∧
    calcJpegShink (1 / 2 ^ 63) ImageType.JPEG = 1 ∧
    (8 : ℚ) ≤ 1 / (1 / 2 ^ 63) ∧
    ¬ (∀ e : Int, e ∈ [1, 2, 4, 8] → (e : ℚ) ≤ 1 / (1 / 2 ^ 63) →
      e ≤ calcJpegShink (1 / 2 ^ 63) ImageType.JPEG) := by
  have hs : f64 (1 / 2 ^ 63) = 1 / 2 ^ 63 :=
    f64_of_mantissa (m := 2 ^ 52) (j := -115) (by norm_num) (by norm_num) (by norm_num)
      (by norm_num)
  have hq : f64 (1 / (1 / 2 ^ 63)) = 2 ^ 63 := by
    have h : (1 : ℚ) / (1 / 2 ^ 63) = 2 ^ 63 := by norm_num
    rw [h]
    exact f64_of_mantissa (m := 2 ^ 52) (j := 11) (by norm_num) (by norm_num) (by norm_num)
      (by norm_num)
  have hg : goInt ((2 : ℚ) ^ 63) = -2 ^ 63 := by
    have hfl : ⌊(2 : ℚ) ^ 63⌋ = 2 ^ 63 := by
      have : ((2 : ℚ) ^ 63) = (((2 : Int) ^ 63 : Int) : ℚ) := by norm_num
      rw [this, Int.floor_intCast]
    unfold goInt
    have h0 : (0 : ℚ) ≤ 2 ^ 63 := by positivity
    simp only [h0, if_true, hfl]
    decide
  have hc : calcJpegShink (1 / 2 ^ 63) ImageType.JPEG = 1 := by
    unfold calcJpegShink
    simp only [hq, hg]
    decide
  refine ⟨hs, by positivity, by norm_num, hc, by norm_num, ?_⟩
  intro h
  have := h 8 (by simp) (by norm_num)
  rw [hc] at this
  exact absurd this (by decide)

/-- C1, amended: for every float64 scale with `2^-63 < prescale < 1`, `calcJpegShink` returns
the largest element of `{1, 2, 4, 8}` that does not exceed `1 / prescale`. -/
theorem calcJpegShink_largest (scale : ℚ) (imgtype : ImageType)
    (hf : f64 scale = scale) (h0 : 1 / 2 ^ 63 < scale) (h1 : scale < 1) :
    calcJpegShink scale imgtype ∈ [1, 2, 4, 8] ∧
    ((calcJpegShink scale imgtype : Int) : ℚ) ≤ 1 / scale ∧
    ∀ e : Int, e ∈ [1, 2, 4, 8] → (e : ℚ) ≤ 1 / scale → e ≤ calcJpegShink scale imgtype :=
  calcJpegShink_greatest scale imgtype hf h0 h1

/-- C1, amended, at the float64 scale 0.375: the divisor is the largest element of
`{1, 2, 4, 8}` not above `1 / 0.375`. -/
theorem calcJpegShink_largest_witness :
    f64 (3 / 8) = 3 / 8 ∧ (1 / 2 ^ 63 : ℚ) < 3 / 8 ∧ (3 / 8 : ℚ) < 1 ∧
    (calcJpegShink (3 / 8) ImageType.JPEG ∈ [1, 2, 4, 8] ∧
    ((calcJpegShink (3 / 8) ImageType.JPEG : Int) : ℚ) ≤ 1 / (3 / 8) ∧
    ∀ e : Int, e ∈ [1, 2, 4, 8] → (e : ℚ) ≤ 1 / (3 / 8) →
      e ≤ calcJpegShink (3 / 8) ImageType.JPEG) :=
  have hf : f64 (3 / 8) = 3 / 8 :=
    f64_of_mantissa (m := 3 * 2 ^ 51) (j := -54) (by norm_num) (by norm_num) (by norm_num)
      (by norm_num)
  ⟨hf, by norm_num, by norm_num,
    calcJpegShink_largest (3 / 8) ImageType.JPEG hf (by norm_num) (by norm_num)⟩

end processing

namespace processing

open imagetype

theorem canScaleOnLoad_true_iff (cfg : config.Config) (t : ImageType) (s : ℚ) :
    canScaleOnLoad cfg t s = true ↔
      t = ImageType.SVG ∨
        ((t = ImageType.JPEG ∨ t = ImageType.WEBP) ∧ s < 1 ∧ cfg.DisableShrinkOnLoad = false) := by
  unfold canScaleOnLoad
  by_cases hsvg : t = ImageType.SVG
  · simp [hsvg]
  · by_cases hd : cfg.DisableShrinkOnLoad = true
    · simp [hsvg, hd]
    · by_cases hs : s ≥ 1
      · simp [hsvg, hs, not_lt.mpr hs]
      · have hd2 : cfg.DisableShrinkOnLoad = false := by simpa using hd
        have hs2 : s < 1 := not_le.mp hs
        simp [hsvg, hd2, hs2]

/-- C3: `canScaleOnLoad` holds exactly for SVG (whatever the configuration and the scale) and
for JPEG or WEBP with a scale below 1 while shrink-on-load is not disabled; for every other
type it is false. -/
theorem canScaleOnLoad_iff (cfg : config.Config) (t : ImageType) (s : ℚ) :
    (canScaleOnLoad cfg t s = true ↔
      t = ImageType.SVG ∨
        ((t = ImageType.JPEG ∨ t = ImageType.WEBP) ∧ s < 1 ∧ cfg.DisableShrinkOnLoad = false)) ∧
    (canScaleOnLoad cfg ImageType.SVG s = true) ∧
    (t ≠ ImageType.SVG → t ≠ ImageType.JPEG → t ≠ ImageType.WEBP →
      canScaleOnLoad cfg t s = false) := by
  refine ⟨canScaleOnLoad_true_iff cfg t s, ?_, ?_⟩
  · exact (canScaleOnLoad_true_iff cfg ImageType.SVG s).mpr (Or.inl rfl)
  · intro h1 h2 h3
    have h := canScaleOnLoad_true_iff cfg t s
    cases hc : canScaleOnLoad cfg t s
    · rfl
    · rcases h.mp hc with h | ⟨h | h, _⟩
      · exact absurd h h1
      · exact absurd h h2
      · exact absurd h h3

end processing

namespace processing

open imagetype

/-- The step when one of its four preconditions fails. -/
theorem scaleOnLoad_precond {Img : Type} (cfg : config.Config) (env : Env Img)
    (pctx : pipelineContext) (img : Img) (po : ProcessingOptions) (imgdata : Option ImageData)
    (h : pctx.trimmed = true ∨ max pctx.wscale pctx.hscale = 1 ∨ imgdata = none ∨
      canScaleOnLoad cfg pctx.imgtype (max pctx.wscale pctx.hscale) = false) :
    scaleOnLoad cfg env pctx img po imgdata =
      { err := none, pctx := pctx, img := img, loads := [], embeds := [] } := by
  unfold scaleOnLoad
  have hc : (pctx.trimmed || decide (max pctx.wscale pctx.hscale = 1) || imgdata.isNone
      || !canScaleOnLoad cfg pctx.imgtype (max pctx.wscale pctx.hscale)) = true := by
    rcases h with h | h | h | h
    · simp [h]
    · simp [h]
    · simp [h]
    · simp [h]
  simp only [hc, if_true]

/-- The step once all four preconditions hold. -/
theorem scaleOnLoad_pass {Img : Type} (cfg : config.Config) (env : Env Img)
    (pctx : pipelineContext) (img : Img) (po : ProcessingOptions) (data : ImageData)
    (h1 : pctx.trimmed = false) (h2 : max pctx.wscale pctx.hscale ≠ 1)
    (h3 : canScaleOnLoad cfg pctx.imgtype (max pctx.wscale pctx.hscale) = true) :
    scaleOnLoad cfg env pctx img po (some data) =
      if pctx.imgtype = ImageType.JPEG ∧
          calcJpegShink (max pctx.wscale pctx.hscale) pctx.imgtype = 1 then
        { err := none, pctx := pctx, img := img, loads := [], embeds := [] }
      else
        match env.Load img data (calcJpegShink (max pctx.wscale pctx.hscale) pctx.imgtype)
            (max pctx.wscale pctx.hscale) 1 with
        | (img1, some err) =>
          { err := some err, pctx := pctx, img := img1,
            loads := [{ imgdata := data,
                        shrink := calcJpegShink (max pctx.wscale pctx.hscale) pctx.imgtype,
                        scale := max pctx.wscale pctx.hscale, pages := 1 }], embeds := [] }
        | (img1, none) =>
          let dims := env.extractMeta img1 po.Rotate po.AutoRotate
          let newWidth := dims.1
          let newHeight := dims.2.1
          let wscale1 := f64 (f64 (f64 (pctx.srcWidth : ℚ) * pctx.wscale) / f64 (newWidth : ℚ))
          let wscale2 := if newWidth = imath.Scale newWidth wscale1 then 1 else wscale1
          let hscale1 :=
            f64 (f64 (f64 (pctx.srcHeight : ℚ) * pctx.hscale) / f64 (newHeight : ℚ))
          let hscale2 := if newHeight = imath.Scale newHeight hscale1 then 1 else hscale1
          { err := none, pctx := { pctx with wscale := wscale2, hscale := hscale2 },
            img := img1,
            loads := [{ imgdata := data,
                        shrink := calcJpegShink (max pctx.wscale pctx.hscale) pctx.imgtype,
                        scale := max pctx.wscale pctx.hscale, pages := 1 }], embeds := [] } := by
  unfold scaleOnLoad
  have hc : (pctx.trimmed || decide (max pctx.wscale pctx.hscale = 1) || (some data).isNone
      || !canScaleOnLoad cfg pctx.imgtype (max pctx.wscale pctx.hscale)) = false := by
    simp [h1, h2, h3]
  simp only [hc]
  rfl

/-- C10: when a precondition of scale-on-load fails the step returns success, makes no call
of `Load` and leaves the whole context (and the handle) as it was. -/
theorem scaleOnLoad_noop_of_failed_precondition {Img : Type} (cfg : config.Config)
    (env : Env Img) (pctx : pipelineContext) (img : Img) (po : ProcessingOptions)
    (imgdata : Option ImageData)
    (h : pctx.trimmed = true ∨ max pctx.wscale pctx.hscale = 1 ∨ imgdata = none ∨
      canScaleOnLoad cfg pctx.imgtype (max pctx.wscale pctx.hscale) = false) :
    (scaleOnLoad cfg env pctx img po imgdata).err = none ∧
    (scaleOnLoad cfg env pctx img po imgdata).loads = [] ∧
    (scaleOnLoad cfg env pctx img po imgdata).pctx = pctx ∧
    (scaleOnLoad cfg env pctx img po imgdata).img = img := by
  rw [scaleOnLoad_precond cfg env pctx img po imgdata h]
  exact ⟨rfl, rfl, rfl, rfl⟩

/-- C10 at an already trimmed context: the step does nothing. -/
theorem scaleOnLoad_noop_of_failed_precondition_witness :
    examples.trimmedCtx.trimmed = true ∧
    (scaleOnLoad examples.cfg dimsEnv examples.trimmedCtx ⟨100, 100⟩ examples.po
      (some examples.data)).err = none ∧
    (scaleOnLoad examples.cfg dimsEnv examples.trimmedCtx ⟨100, 100⟩ examples.po
      (some examples.data)).loads = [] ∧
    (scaleOnLoad examples.cfg dimsEnv examples.trimmedCtx ⟨100, 100⟩ examples.po
      (some examples.data)).pctx = examples.trimmedCtx ∧
    (scaleOnLoad examples.cfg dimsEnv examples.trimmedCtx ⟨100, 100⟩ examples.po
      (some examples.data)).img = ⟨100, 100⟩ :=
  ⟨rfl, scaleOnLoad_noop_of_failed_precondition examples.cfg dimsEnv examples.trimmedCtx
    ⟨100, 100⟩ examples.po (some examples.data) (Or.inl rfl)⟩

end processing

namespace processing

open imagetype

theorem f64_intCast {n : Int} (h0 : 0 ≤ n) (h1 : n ≤ 2 ^ 53) : f64 (n : ℚ) = n := by
  obtain ⟨k, rfl⟩ := Int.eq_ofNat_of_zero_le h0
  have hk : k ≤ 2 ^ 53 := by exact_mod_cast h1
  have := f64_natCast hk
  simpa using this

theorem goInt_intCast {n : Int} (h0 : -2 ^ 63 ≤ n) (h1 : n < 2 ^ 63) : goInt (n : ℚ) = n := by
  unfold goInt
  have ht : (if (0 : ℚ) ≤ (n : ℚ) then ⌊(n : ℚ)⌋ else ⌈(n : ℚ)⌉) = n := by
    split <;> simp
  simp only [ht]
  rw [if_pos ⟨h0, h1⟩]

theorem mathRound_intCast (n : Int) : mathRound (n : ℚ) = (n : ℚ) := by
  unfold mathRound
  split
  · have : ⌊(n : ℚ) + 1 / 2⌋ = n := by
      rw [Int.floor_eq_iff]
      constructor <;> norm_num
    rw [this]
  · have : ⌈(n : ℚ) - 1 / 2⌉ = n := by
      rw [Int.ceil_eq_iff]
      constructor <;> norm_num
    rw [this]

theorem Round_intCast {n : Int} (h0 : -2 ^ 63 ≤ n) (h1 : n < 2 ^ 63) :
    imath.Round (n : ℚ) = n := by
  unfold imath.Round
  rw [mathRound_intCast, goInt_intCast h0 h1]

/-- Scaling by a factor whose exact product with the dimension is a small integer. -/
theorem Scale_of_exact {a n : Int} {s : ℚ} (ha0 : 0 ≤ a) (ha : a ≤ 2 ^ 53)
    (hn0 : 0 ≤ n) (hn : n ≤ 2 ^ 53) (h : (a : ℚ) * s = n) : imath.Scale a s = n := by
  unfold imath.Scale
  rw [f64_intCast ha0 ha, h, f64_intCast hn0 hn, Round_intCast (by omega) (by omega)]

theorem Scale_one {n : Int} (h0 : 0 ≤ n) (h1 : n ≤ 2 ^ 53) : imath.Scale n 1 = n :=
  Scale_of_exact h0 h1 h0 h1 (mul_one _)

/-- The recomputed scale when the new dimension is exactly the scaled source dimension. -/
theorem recompute_one {src new : Int} {s : ℚ} (hs0 : 0 ≤ src) (hs : src ≤ 2 ^ 53)
    (hn0 : 0 < new) (hn : new ≤ 2 ^ 53) (h : (src : ℚ) * s = new) :
    f64 (f64 (f64 (src : ℚ) * s) / f64 (new : ℚ)) = 1 := by
  rw [f64_intCast hs0 hs, h, f64_intCast (le_of_lt hn0) hn]
  have hq : (new : ℚ) ≠ 0 := by exact_mod_cast (ne_of_gt hn0)
  rw [div_self hq]
  have := f64_intCast (n := 1) (by norm_num) (by norm_num)
  simpa using this

theorem f64_three_quarters : f64 (3 / 4) = 3 / 4 :=
  f64_of_mantissa (m := 3 * 2 ^ 51) (j := -53) (by norm_num) (by norm_num) (by norm_num)
    (by norm_num)

theorem calcJpegShink_three_quarters (t : ImageType) : calcJpegShink (3 / 4) t = 1 := by
  obtain ⟨hmem, hle, _⟩ :=
    calcJpegShink_greatest (3 / 4) t f64_three_quarters (by norm_num) (by norm_num)
  simp only [List.mem_cons, List.mem_singleton, List.not_mem_nil, or_false] at hmem
  rcases hmem with h | h | h | h
  · exact h
  · rw [h] at hle; norm_num at hle
  · rw [h] at hle; norm_num at hle
  · rw [h] at hle; norm_num at hle

theorem calcJpegShink_of_inv {n : Int} {s : ℚ} (h0 : 0 ≤ n) (hn : n ≤ 2 ^ 53)
    (h : 1 / s = n) (t : ImageType) :
    calcJpegShink s t = if n ≥ 8 then 8 else if n ≥ 4 then 4 else if n ≥ 2 then 2 else 1 := by
  unfold calcJpegShink
  rw [h, f64_intCast h0 hn, goInt_intCast (by omega) (by omega)]

theorem calcJpegShink_quarter (t : ImageType) : calcJpegShink (1 / 4) t = 4 := by
  rw [calcJpegShink_of_inv (n := 4) (by norm_num) (by norm_num) (by norm_num)]
  decide

theorem calcJpegShink_half (t : ImageType) : calcJpegShink (1 / 2) t = 2 := by
  rw [calcJpegShink_of_inv (n := 2) (by norm_num) (by norm_num) (by norm_num)]
  decide

theorem scaleOnLoad_webp_example :
    scaleOnLoad examples.cfg dimsEnv examples.webpCtx ⟨100, 100⟩ examples.po
        (some examples.data) =
      { err := none, pctx := { examples.webpCtx with wscale := 1, hscale := 1 },
        img := ⟨75, 75⟩,
        loads := [{ imgdata := examples.data, shrink := 1, scale := 3 / 4, pages := 1 }],
        embeds := [] } := by
  have hm : max examples.webpCtx.wscale examples.webpCtx.hscale = 3 / 4 := by
    simp [examples.webpCtx]
  have hcan : canScaleOnLoad examples.cfg examples.webpCtx.imgtype (3 / 4) = true := by
    rw [canScaleOnLoad_true_iff]
    right
    refine ⟨Or.inr rfl, by norm_num, rfl⟩
  rw [scaleOnLoad_pass _ _ _ _ _ _ rfl (by rw [hm]; norm_num) (by rw [hm]; exact hcan)]
  rw [hm, calcJpegShink_three_quarters]
  have hj : ¬ (examples.webpCtx.imgtype = ImageType.JPEG ∧ (1 : Int) = 1) := by
    simp [examples.webpCtx]
  rw [if_neg hj]
  have hsc : imath.Scale 100 (3 / 4) = 75 :=
    Scale_of_exact (by norm_num) (by norm_num) (by norm_num) (by norm_num) (by norm_num)
  have hload : dimsEnv.Load ⟨100, 100⟩ examples.data 1 (3 / 4) 1 = (⟨75, 75⟩, none) := by
    simp [dimsEnv, hsc]
  rw [hload]
  have hw : f64 (f64 (f64 ((100 : Int) : ℚ) * (3 / 4)) / f64 ((75 : Int) : ℚ)) = 1 :=
    recompute_one (by norm_num) (by norm_num) (by norm_num) (by norm_num) (by norm_num)
  have h75 : imath.Scale 75 1 = 75 := Scale_one (by norm_num) (by norm_num)
  simp only [dimsEnv, examples.webpCtx, hw, h75, if_true]

theorem scaleOnLoad_quarter_example :
    scaleOnLoad examples.cfg dimsEnv examples.quarterCtx ⟨100, 100⟩ examples.po
        (some examples.data) =
      { err := none, pctx := { examples.quarterCtx with wscale := 1, hscale := 1 },
        img := ⟨25, 25⟩,
        loads := [{ imgdata := examples.data, shrink := 4, scale := 1 / 4, pages := 1 }],
        embeds := [] } := by
  have hm : max examples.quarterCtx.wscale examples.quarterCtx.hscale = 1 / 4 := by
    simp [examples.quarterCtx]
  have hcan : canScaleOnLoad examples.cfg examples.quarterCtx.imgtype (1 / 4) = true := by
    rw [canScaleOnLoad_true_iff]
    right
    refine ⟨Or.inl rfl, by norm_num, rfl⟩
  rw [scaleOnLoad_pass _ _ _ _ _ _ rfl (by rw [hm]; norm_num) (by rw [hm]; exact hcan)]
  rw [hm, calcJpegShink_quarter]
  have hj : ¬ (examples.quarterCtx.imgtype = ImageType.JPEG ∧ (4 : Int) = 1) := by
    simp
  rw [if_neg hj]
  have hload : dimsEnv.Load ⟨100, 100⟩ examples.data 4 (1 / 4) 1 = (⟨25, 25⟩, none) := by
    simp [dimsEnv]
    decide
  rw [hload]
  have hw : f64 (f64 (f64 ((100 : Int) : ℚ) * (1 / 4)) / f64 ((25 : Int) : ℚ)) = 1 :=
    recompute_one (by norm_num) (by norm_num) (by norm_num) (by norm_num) (by norm_num)
  have h25 : imath.Scale 25 1 = 25 := Scale_one (by norm_num) (by norm_num)
  simp only [dimsEnv, examples.quarterCtx, hw, h25, if_true]

end processing


namespace processing

open imagetype

/-- The float64 quotient `59 * 0.5 / 29`: the nearest float64 lies below `59 / 58`. -/
theorem recompute_odd :
    f64 (f64 (f64 ((59 : Int) : ℚ) * (1 / 2)) / f64 ((29 : Int) : ℚ)) =
      4581247896807918 / 2 ^ 52 := by
  rw [f64_intCast (by norm_num) (by norm_num), f64_intCast (by norm_num) (by norm_num)]
  have h1 : f64 (((59 : Int) : ℚ) * (1 / 2)) = 59 / 2 := by
    have h : ((59 : Int) : ℚ) * (1 / 2) = 59 / 2 := by norm_num
    rw [h]
    exact f64_of_mantissa (m := 59 * 2 ^ 47) (j := -48) (by norm_num) (by norm_num)
      (by norm_num) (by norm_num)
  rw [h1]
  have hm : roundEven ((59 / 2 / ((29 : Int) : ℚ)) / 2 ^ ((0 : Int) - 52)) =
      4581247896807918 := by
    apply roundEven_of_lt_half
    · norm_num
    · norm_num
  rw [f64_eq (e := 0) (by norm_num) (by norm_num) (by norm_num) hm]
  norm_num

/-- Scaling 29 by that quotient: the float64 product lies below 29.5 and rounds to 29. -/
theorem Scale_odd : imath.Scale 29 (4581247896807918 / 2 ^ 52) = 29 := by
  unfold imath.Scale
  rw [f64_intCast (by norm_num) (by norm_num)]
  have hm : roundEven ((((29 : Int) : ℚ) * (4581247896807918 / 2 ^ 52)) / 2 ^ ((4 : Int) - 52)) =
      8303511812964351 := by
    apply roundEven_of_lt_half
    · norm_num
    · norm_num
  rw [f64_eq (e := 4) (by norm_num) (by norm_num) (by norm_num) hm]
  unfold imath.Round mathRound
  have hpos : (0 : ℚ) ≤ ((8303511812964351 : Int) : ℚ) * 2 ^ ((4 : Int) - 52) := by positivity
  rw [if_pos hpos]
  have hfl : ⌊((8303511812964351 : Int) : ℚ) * 2 ^ ((4 : Int) - 52) + 1 / 2⌋ = 29 := by
    rw [Int.floor_eq_iff]
    constructor <;> norm_num
  rw [hfl]
  exact goInt_intCast (by norm_num) (by norm_num)

/-- Scaling 59 by 0.5: the product 29.5 is exact and rounds to 30. -/
theorem Scale_fifty_nine_half : imath.Scale 59 (1 / 2) = 30 := by
  unfold imath.Scale
  rw [f64_intCast (by norm_num) (by norm_num)]
  have h1 : f64 (((59 : Int) : ℚ) * (1 / 2)) = 59 / 2 := by
    have h : ((59 : Int) : ℚ) * (1 / 2) = 59 / 2 := by norm_num
    rw [h]
    exact f64_of_mantissa (m := 59 * 2 ^ 47) (j := -48) (by norm_num) (by norm_num)
      (by norm_num) (by norm_num)
  rw [h1]
  unfold imath.Round mathRound
  rw [if_pos (by norm_num)]
  have hfl : ⌊(59 / 2 : ℚ) + 1 / 2⌋ = 30 := by
    rw [Int.floor_eq_iff]
    constructor <;> norm_num
  rw [hfl]
  exact goInt_intCast (by norm_num) (by norm_num)

theorem scaleOnLoad_odd_example :
    scaleOnLoad examples.cfg dimsEnv examples.oddCtx ⟨59, 59⟩ examples.po
        (some examples.data) =
      { err := none, pctx := { examples.oddCtx with wscale := 1, hscale := 1 },
        img := ⟨29, 29⟩,
        loads := [{ imgdata := examples.data, shrink := 2, scale := 1 / 2, pages := 1 }],
        embeds := [] } := by
  have hm : max examples.oddCtx.wscale examples.oddCtx.hscale = 1 / 2 := by
    simp [examples.oddCtx]
  have hcan : canScaleOnLoad examples.cfg examples.oddCtx.imgtype (1 / 2) = true := by
    rw [canScaleOnLoad_true_iff]
    right
    refine ⟨Or.inl rfl, by norm_num, rfl⟩
  rw [scaleOnLoad_pass _ _ _ _ _ _ rfl (by rw [hm]; norm_num) (by rw [hm]; exact hcan)]
  rw [hm, calcJpegShink_half]
  have hj : ¬ (examples.oddCtx.imgtype = ImageType.JPEG ∧ (2 : Int) = 1) := by
    simp
  rw [if_neg hj]
  have hload : dimsEnv.Load ⟨59, 59⟩ examples.data 2 (1 / 2) 1 = (⟨29, 29⟩, none) := by
    simp [dimsEnv]
    decide
  rw [hload]
  simp only [dimsEnv, examples.oddCtx, recompute_odd, Scale_odd, if_true]

end processing


namespace processing

open imagetype

/-- C2 fails as stated: for a WEBP source scaled by 0.75 the divisor is 1, yet `Load` is
called (with divisor 1 and the prescale) and both scales change. -/
theorem webp_divisor_one_calls_Load :
    calcJpegShink (max examples.webpCtx.wscale examples.webpCtx.hscale)
      examples.webpCtx.imgtype = 1 ∧
    (scaleOnLoad examples.cfg dimsEnv examples.webpCtx ⟨100, 100⟩ examples.po
      (some examples.data)).loads =
        [{ imgdata := examples.data, shrink := 1, scale := 3 / 4, pages := 1 }] ∧
    ¬ ((scaleOnLoad examples.cfg dimsEnv examples.webpCtx ⟨100, 100⟩ examples.po
        (some examples.data)).loads = [] ∧
      (scaleOnLoad examples.cfg dimsEnv examples.webpCtx ⟨100, 100⟩ examples.po
        (some examples.data)).pctx.wscale = examples.webpCtx.wscale ∧
      (scaleOnLoad examples.cfg dimsEnv examples.webpCtx ⟨100, 100⟩ examples.po
        (some examples.data)).pctx.hscale = examples.webpCtx.hscale) := by
  rw [scaleOnLoad_webp_example]
  refine ⟨?_, rfl, ?_⟩
  · have hm : max examples.webpCtx.wscale examples.webpCtx.hscale = 3 / 4 := by
      simp [examples.webpCtx]
    rw [hm]
    exact calcJpegShink_three_quarters _
  · intro h
    exact absurd h.1 (by simp)

/-- C2, amended: when the divisor is 1 and the type is JPEG or a precondition fails,
`scaleOnLoad` returns success without calling `Load` and leaves the context unchanged; in every
other case with divisor 1 it calls `Load` exactly once, with divisor 1, the prescale and one
page. -/
theorem scaleOnLoad_divisor_one {Img : Type} (cfg : config.Config) (env : Env Img)
    (pctx : pipelineContext) (img : Img) (po : ProcessingOptions) (imgdata : Option ImageData)
    (hd : calcJpegShink (max pctx.wscale pctx.hscale) pctx.imgtype = 1) :
    ((pctx.imgtype = ImageType.JPEG ∨ pctx.trimmed = true ∨ max pctx.wscale pctx.hscale = 1 ∨
        imgdata = none ∨
        canScaleOnLoad cfg pctx.imgtype (max pctx.wscale pctx.hscale) = false) →
      (scaleOnLoad cfg env pctx img po imgdata).err = none ∧
      (scaleOnLoad cfg env pctx img po imgdata).loads = [] ∧
      (scaleOnLoad cfg env pctx img po imgdata).pctx = pctx) ∧
    (¬ (pctx.imgtype = ImageType.JPEG ∨ pctx.trimmed = true ∨ max pctx.wscale pctx.hscale = 1 ∨
        imgdata = none ∨
        canScaleOnLoad cfg pctx.imgtype (max pctx.wscale pctx.hscale) = false) →
      ∃ data, imgdata = some data ∧
        (scaleOnLoad cfg env pctx img po imgdata).loads =
          [{ imgdata := data, shrink := 1, scale := max pctx.wscale pctx.hscale, pages := 1 }]) := by
  constructor
  · intro h
    by_cases hp : pctx.trimmed = true ∨ max pctx.wscale pctx.hscale = 1 ∨ imgdata = none ∨
        canScaleOnLoad cfg pctx.imgtype (max pctx.wscale pctx.hscale) = false
    · rw [scaleOnLoad_precond cfg env pctx img po imgdata hp]
      exact ⟨rfl, rfl, rfl⟩
    · have hj : pctx.imgtype = ImageType.JPEG := by
        rcases h with h | h
        · exact h
        · exact absurd h hp
      simp only [not_or] at hp
      obtain ⟨h1, h2, h3, h4⟩ := hp
      obtain ⟨data, rfl⟩ := Option.ne_none_iff_exists'.mp h3
      rw [scaleOnLoad_pass cfg env pctx img po data (by simpa using h1) h2 (by simpa using h4)]
      rw [if_pos ⟨hj, hd⟩]
      exact ⟨rfl, rfl, rfl⟩
  · intro h
    simp only [not_or] at h
    obtain ⟨hj, h1, h2, h3, h4⟩ := h
    obtain ⟨data, rfl⟩ := Option.ne_none_iff_exists'.mp h3
    refine ⟨data, rfl, ?_⟩
    rw [scaleOnLoad_pass cfg env pctx img po data (by simpa using h1) h2 (by simpa using h4)]
    rw [if_neg (fun hc => hj hc.1), hd]
    rcases hl : env.Load img data 1 (max pctx.wscale pctx.hscale) 1 with ⟨img1, e⟩
    cases e <;> rfl

/-- C2, amended, at a JPEG source scaled by 0.75: divisor 1, no call of `Load`, context
unchanged. -/
theorem scaleOnLoad_divisor_one_witness :
    calcJpegShink (max examples.jpegCtx.wscale examples.jpegCtx.hscale)
      examples.jpegCtx.imgtype = 1 ∧
    (scaleOnLoad examples.cfg dimsEnv examples.jpegCtx ⟨100, 100⟩ examples.po
      (some examples.data)).err = none ∧
    (scaleOnLoad examples.cfg dimsEnv examples.jpegCtx ⟨100, 100⟩ examples.po
      (some examples.data)).loads = [] ∧
    (scaleOnLoad examples.cfg dimsEnv examples.jpegCtx ⟨100, 100⟩ examples.po
      (some examples.data)).pctx = examples.jpegCtx := by
  have hd : calcJpegShink (max examples.jpegCtx.wscale examples.jpegCtx.hscale)
      examples.jpegCtx.imgtype = 1 := by
    have hm : max examples.jpegCtx.wscale examples.jpegCtx.hscale = 3 / 4 := by
      simp [examples.jpegCtx]
    rw [hm]
    exact calcJpegShink_three_quarters _
  exact ⟨hd, (scaleOnLoad_divisor_one examples.cfg dimsEnv examples.jpegCtx ⟨100, 100⟩
    examples.po (some examples.data) hd).1 (Or.inl rfl)⟩

end processing

namespace processing

open imagetype

/-- C8 fails as stated: for a 59 by 59 JPEG source scaled by 0.5, `Load` at divisor 2 leaves a
29 by 29 image; the float64 quotient `59 * 0.5 / 29` lies below `59 / 58`, its product with 29
rounds to 29, the scale is snapped to 1.0, and the target goes from `Scale(59, 0.5) = 30` to
`Scale(29, 1.0) = 29`. -/
theorem scaleOnLoad_target_drifts :
    f64 examples.oddCtx.wscale = examples.oddCtx.wscale ∧
    0 < examples.oddCtx.srcWidth ∧ 0 < examples.oddCtx.wscale ∧
    (scaleOnLoad examples.cfg dimsEnv examples.oddCtx ⟨59, 59⟩ examples.po
      (some examples.data)).err = none ∧
    (scaleOnLoad examples.cfg dimsEnv examples.oddCtx ⟨59, 59⟩ examples.po
      (some examples.data)).loads ≠ [] ∧
    (dimsEnv.extractMeta (scaleOnLoad examples.cfg dimsEnv examples.oddCtx ⟨59, 59⟩ examples.po
      (some examples.data)).img examples.po.Rotate examples.po.AutoRotate).1 = 29 ∧
    (scaleOnLoad examples.cfg dimsEnv examples.oddCtx ⟨59, 59⟩ examples.po
      (some examples.data)).pctx.wscale = 1 ∧
    imath.Scale (dimsEnv.extractMeta (scaleOnLoad examples.cfg dimsEnv examples.oddCtx
        ⟨59, 59⟩ examples.po (some examples.data)).img
        examples.po.Rotate examples.po.AutoRotate).1
      (scaleOnLoad examples.cfg dimsEnv examples.oddCtx ⟨59, 59⟩ examples.po
        (some examples.data)).pctx.wscale = 29 ∧
    imath.Scale examples.oddCtx.srcWidth examples.oddCtx.wscale = 30 ∧
    ¬ (imath.Scale (dimsEnv.extractMeta (scaleOnLoad examples.cfg dimsEnv examples.oddCtx
        ⟨59, 59⟩ examples.po (some examples.data)).img
        examples.po.Rotate examples.po.AutoRotate).1
      (scaleOnLoad examples.cfg dimsEnv examples.oddCtx ⟨59, 59⟩ examples.po
        (some examples.data)).pctx.wscale =
      imath.Scale examples.oddCtx.srcWidth examples.oddCtx.wscale) := by
  have hhalf : f64 (1 / 2) = 1 / 2 :=
    f64_of_mantissa (m := 2 ^ 52) (j := -53) (by norm_num) (by norm_num) (by norm_num)
      (by norm_num)
  have h29 : imath.Scale 29 1 = 29 := Scale_one (by norm_num) (by norm_num)
  rw [scaleOnLoad_odd_example]
  refine ⟨hhalf, by decide, ?_, rfl, by simp, rfl, rfl, h29, Scale_fifty_nine_half, ?_⟩
  · show (0 : ℚ) < 1 / 2
    norm_num
  · show ¬ (imath.Scale 29 1 = imath.Scale 59 (1 / 2))
    rw [h29, Scale_fifty_nine_half]
    decide

/-- C8, amended: when `scaleOnLoad` returns success, the source dimensions and the handle's
dimensions afterwards are positive and at most `2^53` (and the latter are the source dimensions
where `Load` was not called), and where `Load` was called the float64 recomputation is exact on
an axis (the new dimension times the stored quotient is the source dimension times the old
scale), then scaling the new dimension by the new scale gives the same result as scaling the
source dimension by the old scale, whether the recomputed scale is kept or snapped to 1. -/
theorem scaleOnLoad_preserves_target {Img : Type} (cfg : config.Config) (env : Env Img)
    (pctx : pipelineContext) (img : Img) (po : ProcessingOptions) (imgdata : Option ImageData)
    (hsw : 0 < pctx.srcWidth ∧ pctx.srcWidth ≤ 2 ^ 53)
    (hsh : 0 < pctx.srcHeight ∧ pctx.srcHeight ≤ 2 ^ 53)
    (hok : (scaleOnLoad cfg env pctx img po imgdata).err = none)
    (hnw : 0 < (env.extractMeta (scaleOnLoad cfg env pctx img po imgdata).img
        po.Rotate po.AutoRotate).1 ∧
      (env.extractMeta (scaleOnLoad cfg env pctx img po imgdata).img
        po.Rotate po.AutoRotate).1 ≤ 2 ^ 53)
    (hnh : 0 < (env.extractMeta (scaleOnLoad cfg env pctx img po imgdata).img
        po.Rotate po.AutoRotate).2.1 ∧
      (env.extractMeta (scaleOnLoad cfg env pctx img po imgdata).img
        po.Rotate po.AutoRotate).2.1 ≤ 2 ^ 53)
    (hnoop : (scaleOnLoad cfg env pctx img po imgdata).loads = [] →
      (env.extractMeta (scaleOnLoad cfg env pctx img po imgdata).img
        po.Rotate po.AutoRotate).1 = pctx.srcWidth ∧
      (env.extractMeta (scaleOnLoad cfg env pctx img po imgdata).img
        po.Rotate po.AutoRotate).2.1 = pctx.srcHeight)
    (hexw : (scaleOnLoad cfg env pctx img po imgdata).loads ≠ [] →
      (((env.extractMeta (scaleOnLoad cfg env pctx img po imgdata).img
        po.Rotate po.AutoRotate).1 : Int) : ℚ) *
        f64 (f64 (f64 (pctx.srcWidth : ℚ) * pctx.wscale) /
          f64 (((env.extractMeta (scaleOnLoad cfg env pctx img po imgdata).img
            po.Rotate po.AutoRotate).1 : Int) : ℚ)) =
      (pctx.srcWidth : ℚ) * pctx.wscale)
    (hexh : (scaleOnLoad cfg env pctx img po imgdata).loads ≠ [] →
      (((env.extractMeta (scaleOnLoad cfg env pctx img po imgdata).img
        po.Rotate po.AutoRotate).2.1 : Int) : ℚ) *
        f64 (f64 (f64 (pctx.srcHeight : ℚ) * pctx.hscale) /
          f64 (((env.extractMeta (scaleOnLoad cfg env pctx img po imgdata).img
            po.Rotate po.AutoRotate).2.1 : Int) : ℚ)) =
      (pctx.srcHeight : ℚ) * pctx.hscale) :
    imath.Scale (env.extractMeta (scaleOnLoad cfg env pctx img po imgdata).img
        po.Rotate po.AutoRotate).1 (scaleOnLoad cfg env pctx img po imgdata).pctx.wscale =
      imath.Scale pctx.srcWidth pctx.wscale ∧
    imath.Scale (env.extractMeta (scaleOnLoad cfg env pctx img po imgdata).img
        po.Rotate po.AutoRotate).2.1 (scaleOnLoad cfg env pctx img po imgdata).pctx.hscale =
      imath.Scale pctx.srcHeight pctx.hscale := by
  have hkey : ∀ (new src : Int) (s : ℚ), 0 < new → new ≤ 2 ^ 53 → 0 < src → src ≤ 2 ^ 53 →
      (new : ℚ) * f64 (f64 (f64 (src : ℚ) * s) / f64 (new : ℚ)) = (src : ℚ) * s →
      imath.Scale new (if new = imath.Scale new (f64 (f64 (f64 (src : ℚ) * s) / f64 (new : ℚ)))
        then 1 else f64 (f64 (f64 (src : ℚ) * s) / f64 (new : ℚ))) = imath.Scale src s := by
    intro new src s hn0 hn hs0 hs hex
    have hrec : imath.Scale new (f64 (f64 (f64 (src : ℚ) * s) / f64 (new : ℚ))) =
        imath.Scale src s := by
      unfold imath.Scale
      rw [f64_intCast (le_of_lt hn0) hn] at hex ⊢
      rw [hex, f64_intCast (le_of_lt hs0) hs]
    split
    · next heq =>
      rw [Scale_one (le_of_lt hn0) hn, ← hrec]
      exact heq
    · exact hrec
  by_cases hp : pctx.trimmed = true ∨ max pctx.wscale pctx.hscale = 1 ∨ imgdata = none ∨
      canScaleOnLoad cfg pctx.imgtype (max pctx.wscale pctx.hscale) = false
  · rw [scaleOnLoad_precond cfg env pctx img po imgdata hp] at hnoop ⊢
    obtain ⟨ha, hb⟩ := hnoop rfl
    simp only at ha hb ⊢
    rw [ha, hb]
    exact ⟨rfl, rfl⟩
  · simp only [not_or] at hp
    obtain ⟨h1, h2, h3, h4⟩ := hp
    obtain ⟨data, rfl⟩ := Option.ne_none_iff_exists'.mp h3
    have hpass := scaleOnLoad_pass cfg env pctx img po data (by simpa using h1) h2
      (by simpa using h4)
    by_cases hj : pctx.imgtype = ImageType.JPEG ∧
        calcJpegShink (max pctx.wscale pctx.hscale) pctx.imgtype = 1
    · rw [if_pos hj] at hpass
      rw [hpass] at hnoop ⊢
      obtain ⟨ha, hb⟩ := hnoop rfl
      simp only at ha hb ⊢
      rw [ha, hb]
      exact ⟨rfl, rfl⟩
    · rw [if_neg hj] at hpass
      rcases hl : env.Load img data (calcJpegShink (max pctx.wscale pctx.hscale) pctx.imgtype)
        (max pctx.wscale pctx.hscale) 1 with ⟨img1, e⟩
      rw [hl] at hpass
      cases e with
      | some err =>
        rw [hpass] at hok
        exact absurd hok (by simp)
      | none =>
        rw [hpass] at hnw hnh hexw hexh ⊢
        simp only at hnw hnh hexw hexh ⊢
        exact ⟨hkey _ _ _ hnw.1 hnw.2 hsw.1 hsw.2 (hexw (by simp)),
          hkey _ _ _ hnh.1 hnh.2 hsh.1 hsh.2 (hexh (by simp))⟩

/-- C8, amended, at a 100 by 100 JPEG source scaled by 0.25: `Load` at divisor 4 leaves a 25 by
25 image, the recomputation is exact and both scales are snapped to 1. -/
theorem scaleOnLoad_preserves_target_witness :
    imath.Scale (dimsEnv.extractMeta (scaleOnLoad examples.cfg dimsEnv examples.quarterCtx
        ⟨100, 100⟩ examples.po (some examples.data)).img
        examples.po.Rotate examples.po.AutoRotate).1
        (scaleOnLoad examples.cfg dimsEnv examples.quarterCtx
          ⟨100, 100⟩ examples.po (some examples.data)).pctx.wscale =
      imath.Scale examples.quarterCtx.srcWidth examples.quarterCtx.wscale ∧
    imath.Scale (dimsEnv.extractMeta (scaleOnLoad examples.cfg dimsEnv examples.quarterCtx
        ⟨100, 100⟩ examples.po (some examples.data)).img
        examples.po.Rotate examples.po.AutoRotate).2.1
        (scaleOnLoad examples.cfg dimsEnv examples.quarterCtx
          ⟨100, 100⟩ examples.po (some examples.data)).pctx.hscale =
      imath.Scale examples.quarterCtx.srcHeight examples.quarterCtx.hscale :=
  have hw : ((25 : Int) : ℚ) * f64 (f64 (f64 ((100 : Int) : ℚ) * (1 / 4)) / f64 ((25 : Int) : ℚ)) =
      ((100 : Int) : ℚ) * (1 / 4) := by
    rw [recompute_one (by norm_num) (by norm_num) (by norm_num) (by norm_num) (by norm_num)]
    norm_num
  scaleOnLoad_preserves_target examples.cfg dimsEnv examples.quarterCtx ⟨100, 100⟩ examples.po
    (some examples.data)
    (by decide) (by decide)
    (by rw [scaleOnLoad_quarter_example])
    (by rw [scaleOnLoad_quarter_example]; decide)
    (by rw [scaleOnLoad_quarter_example]; decide)
    (by rw [scaleOnLoad_quarter_example]; intro h; exact absurd h (by simp))
    (by rw [scaleOnLoad_quarter_example]; intro _; exact hw)
    (by rw [scaleOnLoad_quarter_example]; intro _; exact hw)

end processing


namespace processing

/-- The extend step when its guard holds. -/
theorem extend_skip {Img : Type} (env : Env Img) (pctx : pipelineContext) (img : Img)
    (po : ProcessingOptions) (imgdata : Option ImageData)
    (h : po.Extend.Enabled = false ∨
      ((env.resultSize po).1 ≤ env.Width img ∧ (env.resultSize po).2 ≤ env.Height img)) :
    extend env pctx img po imgdata =
      { err := none, pctx := pctx, img := img, loads := [], embeds := [] } := by
  unfold extend
  have hc : (!po.Extend.Enabled || (decide ((env.resultSize po).1 ≤ env.Width img) &&
      decide ((env.resultSize po).2 ≤ env.Height img))) = true := by
    rcases h with h | ⟨h1, h2⟩
    · simp [h]
    · simp [h1, h2]
  simp only [hc, if_true]

/-- The extend step when its guard fails. -/
theorem extend_embed {Img : Type} (env : Env Img) (pctx : pipelineContext) (img : Img)
    (po : ProcessingOptions) (imgdata : Option ImageData)
    (h : ¬ (po.Extend.Enabled = false ∨
      ((env.resultSize po).1 ≤ env.Width img ∧ (env.resultSize po).2 ≤ env.Height img))) :
    extend env pctx img po imgdata =
      { err := (env.Embed img (env.resultSize po).1 (env.resultSize po).2
          (env.calcPosition (env.resultSize po).1 (env.resultSize po).2 (env.Width img)
            (env.Height img) po.Extend.Gravity false).1
          (env.calcPosition (env.resultSize po).1 (env.resultSize po).2 (env.Width img)
            (env.Height img) po.Extend.Gravity false).2).2,
        pctx := pctx,
        img := (env.Embed img (env.resultSize po).1 (env.resultSize po).2
          (env.calcPosition (env.resultSize po).1 (env.resultSize po).2 (env.Width img)
            (env.Height img) po.Extend.Gravity false).1
          (env.calcPosition (env.resultSize po).1 (env.resultSize po).2 (env.Width img)
            (env.Height img) po.Extend.Gravity false).2).1,
        loads := [],
        embeds := [
          { width := (env.resultSize po).1,
            height := (env.resultSize po).2,
            offX := (env.calcPosition (env.resultSize po).1 (env.resultSize po).2
              (env.Width img) (env.Height img) po.Extend.Gravity false).1,
            offY := (env.calcPosition (env.resultSize po).1 (env.resultSize po).2
              (env.Width img) (env.Height img) po.Extend.Gravity false).2 }] } := by
  unfold extend
  have hc : (!po.Extend.Enabled || (decide ((env.resultSize po).1 ≤ env.Width img) &&
      decide ((env.resultSize po).2 ≤ env.Height img))) = false := by
    simp only [not_or, not_and] at h
    obtain ⟨h1, h2⟩ := h
    have h1' : po.Extend.Enabled = true := by simpa using h1
    by_cases hw : (env.resultSize po).1 ≤ env.Width img
    · simp [h1', hw, h2 hw]
    · simp [h1', hw]
  simp only [hc]
  rfl

/-- C4: `extend` returns success without calling `Embed` exactly when extend is disabled or
the target size fits within the image on both axes; in every other case it calls `Embed`
exactly once, on the target size with the offsets `calcPosition` gives, and returns the
result of `Embed`. -/
theorem extend_noop_iff {Img : Type} (env : Env Img) (pctx : pipelineContext) (img : Img)
    (po : ProcessingOptions) (imgdata : Option ImageData) :
    (((extend env pctx img po imgdata).err = none ∧
        (extend env pctx img po imgdata).embeds = []) ↔
      (po.Extend.Enabled = false ∨
        ((env.resultSize po).1 ≤ env.Width img ∧ (env.resultSize po).2 ≤ env.Height img))) ∧
    (¬ (po.Extend.Enabled = false ∨
        ((env.resultSize po).1 ≤ env.Width img ∧ (env.resultSize po).2 ≤ env.Height img)) →
      (extend env pctx img po imgdata).embeds =
        [{ width := (env.resultSize po).1,
           height := (env.resultSize po).2,
           offX := (env.calcPosition (env.resultSize po).1 (env.resultSize po).2
             (env.Width img) (env.Height img) po.Extend.Gravity false).1,
           offY := (env.calcPosition (env.resultSize po).1 (env.resultSize po).2
             (env.Width img) (env.Height img) po.Extend.Gravity false).2 }] ∧
      (extend env pctx img po imgdata).err =
        (env.Embed img (env.resultSize po).1 (env.resultSize po).2
          (env.calcPosition (env.resultSize po).1 (env.resultSize po).2
             (env.Width img) (env.Height img) po.Extend.Gravity false).1
          (env.calcPosition (env.resultSize po).1 (env.resultSize po).2
             (env.Width img) (env.Height img) po.Extend.Gravity false).2).2) := by
  by_cases h : po.Extend.Enabled = false ∨
      ((env.resultSize po).1 ≤ env.Width img ∧ (env.resultSize po).2 ≤ env.Height img)
  · rw [extend_skip env pctx img po imgdata h]
    exact ⟨⟨fun _ => h, fun _ => ⟨rfl, rfl⟩⟩, fun hn => absurd h hn⟩
  · rw [extend_embed env pctx img po imgdata h]
    refine ⟨⟨fun hc => absurd hc.2 (by simp), fun hc => absurd hc h⟩, fun _ => ⟨rfl, rfl⟩⟩

theorem extend_example_tall :
    (extend dimsEnv examples.jpegCtx ⟨5, 10⟩ examples.po (some examples.data)).embeds =
      [{ width := 10, height := 5, offX := 3, offY := 0 }] := by
  have h : ¬ (examples.po.Extend.Enabled = false ∨
      ((dimsEnv.resultSize examples.po).1 ≤ dimsEnv.Width ⟨5, 10⟩ ∧
       (dimsEnv.resultSize examples.po).2 ≤ dimsEnv.Height ⟨5, 10⟩)) := by
    simp [dimsEnv, examples.po]
  rw [extend_embed _ _ _ _ _ h]
  simp [dimsEnv, examples.po, calcPosition]
  decide

/-- C5 fails as stated: with extend enabled, a 10 by 5 target and a 5 by 10 image the step is
not a no-op, and the vertical offset passed to `Embed` is 0, above `targetH - imgH = -5`;
whatever `calcPosition` returned there, its vertical offset could not lie in `0 .. -5`. -/
theorem extend_offsets_out_of_range :
    examples.po.Extend.Enabled = true ∧
    ¬ ((dimsEnv.resultSize examples.po).1 ≤ dimsEnv.Width ⟨5, 10⟩ ∧
       (dimsEnv.resultSize examples.po).2 ≤ dimsEnv.Height ⟨5, 10⟩) ∧
    (extend dimsEnv examples.jpegCtx ⟨5, 10⟩ examples.po (some examples.data)).embeds =
      [{ width := 10, height := 5, offX := 3, offY := 0 }] ∧
    ¬ (∀ c ∈ (extend dimsEnv examples.jpegCtx ⟨5, 10⟩ examples.po
          (some examples.data)).embeds,
        0 ≤ c.offX ∧ c.offX ≤ (dimsEnv.resultSize examples.po).1 - dimsEnv.Width ⟨5, 10⟩ ∧
        0 ≤ c.offY ∧ c.offY ≤ (dimsEnv.resultSize examples.po).2 - dimsEnv.Height ⟨5, 10⟩) ∧
    (∀ cp : Int → Int → Int → Int → GravityOptions → Bool → Int × Int,
      ∃ c, (extend { dimsEnv with calcPosition := cp } examples.jpegCtx ⟨5, 10⟩ examples.po
          (some examples.data)).embeds = [c] ∧
        ¬ (0 ≤ c.offY ∧
          c.offY ≤ (dimsEnv.resultSize examples.po).2 - dimsEnv.Height ⟨5, 10⟩)) := by
  refine ⟨rfl, ?_, extend_example_tall, ?_, ?_⟩
  · simp [dimsEnv, examples.po]
  · rw [extend_example_tall]
    simp [dimsEnv, examples.po]
  · intro cp
    have h : ¬ (examples.po.Extend.Enabled = false ∨
        (({ dimsEnv with calcPosition := cp } : Env Dims).resultSize examples.po).1 ≤
            ({ dimsEnv with calcPosition := cp } : Env Dims).Width ⟨5, 10⟩ ∧
         (({ dimsEnv with calcPosition := cp } : Env Dims).resultSize examples.po).2 ≤
            ({ dimsEnv with calcPosition := cp } : Env Dims).Height ⟨5, 10⟩) := by
      simp [dimsEnv, examples.po]
    rw [extend_embed _ _ _ _ _ h]
    refine ⟨_, rfl, ?_⟩
    simp only [dimsEnv, examples.po]
    omega

/-- C5, amended: when `extend` is not a no-op it passes to `Embed` offsets with
`0 ≤ offsetX ≤ targetW - imgW` if the image is not wider than the target, and
`0 ≤ offsetY ≤ targetH - imgH` if the image is not taller than the target. -/
theorem extend_offsets_in_range {Img : Type} (env : Env Img) (pctx : pipelineContext)
    (img : Img) (po : ProcessingOptions) (imgdata : Option ImageData)
    (hcalc : env.calcPosition = calcPosition)
    (hen : po.Extend.Enabled = true)
    (hnot : ¬ ((env.resultSize po).1 ≤ env.Width img ∧
      (env.resultSize po).2 ≤ env.Height img)) :
    ∃ c, (extend env pctx img po imgdata).embeds = [c] ∧
      c.width = (env.resultSize po).1 ∧ c.height = (env.resultSize po).2 ∧
      (env.Width img ≤ (env.resultSize po).1 →
        0 ≤ c.offX ∧ c.offX ≤ (env.resultSize po).1 - env.Width img) ∧
      (env.Height img ≤ (env.resultSize po).2 →
        0 ≤ c.offY ∧ c.offY ≤ (env.resultSize po).2 - env.Height img) := by
  have h : ¬ (po.Extend.Enabled = false ∨
      ((env.resultSize po).1 ≤ env.Width img ∧ (env.resultSize po).2 ≤ env.Height img)) := by
    intro hc
    rcases hc with hc | hc
    · rw [hen] at hc
      exact Bool.noConfusion hc
    · exact hnot hc
  rw [extend_embed env pctx img po imgdata h, hcalc]
  refine ⟨_, rfl, ?_, ?_, ?_, ?_⟩
  · rfl
  · rfl
  · intro hw
    simp only [calcPosition, Bool.false_eq_true, if_false]
    exact ⟨le_max_left _ _, max_le (by omega) (min_le_right _ _)⟩
  · intro hh
    simp only [calcPosition, Bool.false_eq_true, if_false]
    exact ⟨le_max_left _ _, max_le (by omega) (min_le_right _ _)⟩

/-- C5, amended, at a 10 by 5 target and a 5 by 3 image under the modelled `calcPosition`. -/
theorem extend_offsets_in_range_witness :
    ∃ c, (extend dimsEnv examples.jpegCtx ⟨5, 3⟩ examples.po (some examples.data)).embeds = [c] ∧
      c.width = (dimsEnv.resultSize examples.po).1 ∧
      c.height = (dimsEnv.resultSize examples.po).2 ∧
      (dimsEnv.Width ⟨5, 3⟩ ≤ (dimsEnv.resultSize examples.po).1 →
        0 ≤ c.offX ∧ c.offX ≤ (dimsEnv.resultSize examples.po).1 - dimsEnv.Width ⟨5, 3⟩) ∧
      (dimsEnv.Height ⟨5, 3⟩ ≤ (dimsEnv.resultSize examples.po).2 →
        0 ≤ c.offY ∧ c.offY ≤ (dimsEnv.resultSize examples.po).2 - dimsEnv.Height ⟨5, 3⟩) :=
  extend_offsets_in_range dimsEnv examples.jpegCtx ⟨5, 3⟩ examples.po (some examples.data)
    rfl rfl (by simp [dimsEnv, examples.po])

end processing

namespace subtle

theorem lor_eq_zero (a b : Nat) : Nat.lor a b = 0 ↔ a = 0 ∧ b = 0 := by
  show a ||| b = 0 ↔ a = 0 ∧ b = 0
  constructor
  · intro h
    have hbit : ∀ i, a.testBit i = false ∧ b.testBit i = false := by
      intro i
      have hi : (a ||| b).testBit i = false := by rw [h]; exact Nat.zero_testBit i
      rw [Nat.testBit_or] at hi
      simpa using hi
    constructor
    · apply Nat.eq_of_testBit_eq
      intro i
      rw [(hbit i).1, Nat.zero_testBit]
    · apply Nat.eq_of_testBit_eq
      intro i
      rw [(hbit i).2, Nat.zero_testBit]
  · rintro ⟨rfl, rfl⟩
    rfl

theorem foldl_lor_eq_zero (l : List Nat) (a : Nat) :
    l.foldl Nat.lor a = 0 ↔ a = 0 ∧ ∀ v ∈ l, v = 0 := by
  induction l generalizing a with
  | nil => simp
  | cons x xs ih =>
    rw [List.foldl_cons, ih, lor_eq_zero]
    simp only [List.mem_cons, forall_eq_or_imp]
    tauto

theorem zipWith_xor_zero (x y : Bytes) (hlen : x.length = y.length) :
    (∀ v ∈ List.zipWith Nat.xor x y, v = 0) ↔ x = y := by
  induction x generalizing y with
  | nil =>
    cases y with
    | nil => simp
    | cons b bs => simp at hlen
  | cons a as ih =>
    cases y with
    | nil => simp at hlen
    | cons b bs =>
      have hl : as.length = bs.length := by simpa using hlen
      have hx : Nat.xor a b = 0 ↔ a = b := Nat.xor_eq_zero
      simp only [List.zipWith_cons_cons, List.mem_cons, forall_eq_or_imp, ih bs hl, hx,
        List.cons.injEq]

/-- The comparison returns 1 exactly on equal byte sequences. -/
theorem ConstantTimeCompare_eq_one (x y : Bytes) : ConstantTimeCompare x y = 1 ↔ x = y := by
  unfold ConstantTimeCompare
  by_cases hlen : x.length = y.length
  · simp only [hlen, ne_eq, not_true_eq_false, if_false]
    rw [← zipWith_xor_zero x y hlen]
    by_cases hz : (List.zipWith Nat.xor x y).foldl Nat.lor 0 = 0
    · simp only [hz, if_true, true_iff]
      exact ((foldl_lor_eq_zero _ 0).mp hz).2
    · simp only [hz, if_false]
      constructor
      · intro h
        exact absurd h (by decide)
      · intro h
        exact absurd ((foldl_lor_eq_zero _ 0).mpr ⟨rfl, h⟩) hz
  · simp only [ne_eq, hlen, not_false_eq_true, if_true]
    constructor
    · intro h
      exact absurd h (by decide)
    · intro h
      exact absurd (congrArg List.length h) hlen

end subtle

namespace server

/-- C6: the handler returned by `withSecret` calls the wrapped handler exactly when no secret
is configured or the Authorization header is `Bearer ` followed by the secret; otherwise the
handler is not called and the request fails with `errInvalidSecret`, the expected 403 error
whose public message is `Forbidden`. -/
theorem withSecret_invokes_iff {α : Type} (cfg : config.Config) (h : String → Request → α)
    (reqID : String) (r : Request) :
    ((∃ a, withSecret cfg h reqID r = Outcome.handled a) ↔
      (cfg.Secret = [] ∨ r.Authorization = goBytes "Bearer " ++ cfg.Secret)) ∧
    ((cfg.Secret = [] ∨ r.Authorization = goBytes "Bearer " ++ cfg.Secret) →
      withSecret cfg h reqID r = Outcome.handled (h reqID r)) ∧
    (¬ (cfg.Secret = [] ∨ r.Authorization = goBytes "Bearer " ++ cfg.Secret) →
      withSecret cfg h reqID r = Outcome.panicked errInvalidSecret) ∧
    errInvalidSecret.StatusCode = 403 ∧ errInvalidSecret.PublicMessage = "Forbidden" ∧
    errInvalidSecret.Unexpected = false := by
  have hyes : (cfg.Secret = [] ∨ r.Authorization = goBytes "Bearer " ++ cfg.Secret) →
      withSecret cfg h reqID r = Outcome.handled (h reqID r) := by
    intro hc
    unfold withSecret
    by_cases hs : cfg.Secret.length = 0
    · simp only [hs, if_true]
    · simp only [hs, if_false]
      have hs' : cfg.Secret ≠ [] := fun e => hs (by rw [e]; rfl)
      rcases hc with hc | hc
      · exact absurd hc hs'
      · rw [if_pos ((subtle.ConstantTimeCompare_eq_one _ _).mpr hc)]
  have hno : ¬ (cfg.Secret = [] ∨ r.Authorization = goBytes "Bearer " ++ cfg.Secret) →
      withSecret cfg h reqID r = Outcome.panicked errInvalidSecret := by
    intro hc
    simp only [not_or] at hc
    unfold withSecret
    have hs : ¬ cfg.Secret.length = 0 := fun e => hc.1 (List.length_eq_zero.mp e)
    simp only [hs, if_false]
    rw [if_neg (fun e => hc.2 ((subtle.ConstantTimeCompare_eq_one _ _).mp e))]
  refine ⟨⟨?_, fun hc => ⟨_, hyes hc⟩⟩, hyes, hno, rfl, rfl, rfl⟩
  rintro ⟨a, ha⟩
  by_contra hc
  rw [hno hc] at ha
  exact Outcome.noConfusion ha

/-- C7: `handlePanic` writes the status of the normalised error record, then the internal
message in development mode and the public message otherwise, and reports the error exactly
once when the record is unexpected and never when it is expected. -/
theorem handlePanic_effects {E : Type} (cfg : config.Config) (Wrap : E → Int → ierrors.Error)
    (reqID : String) (r : Request) (err : E) :
    (handlePanic cfg Wrap reqID r err).rw =
      [RwCall.WriteHeader (Wrap err 3).StatusCode,
       RwCall.Write (if cfg.DevelopmentErrorsMode then (Wrap err 3).Message
         else (Wrap err 3).PublicMessage)] ∧
    (response (handlePanic cfg Wrap reqID r err).rw).1 = some (Wrap err 3).StatusCode ∧
    (cfg.DevelopmentErrorsMode = true →
      (response (handlePanic cfg Wrap reqID r err).rw).2 = (Wrap err 3).Message) ∧
    (cfg.DevelopmentErrorsMode = false →
      (response (handlePanic cfg Wrap reqID r err).rw).2 = (Wrap err 3).PublicMessage) ∧
    ((Wrap err 3).Unexpected = true →
      (handlePanic cfg Wrap reqID r err).reports = [(err, r)]) ∧
    ((Wrap err 3).Unexpected = false →
      (handlePanic cfg Wrap reqID r err).reports = []) := by
  refine ⟨rfl, rfl, ?_, ?_, ?_, ?_⟩
  · intro hd
    simp [handlePanic, response, respond, hd]
  · intro hd
    simp [handlePanic, response, respond, hd]
  · intro hu
    simp [handlePanic, hu]
  · intro hu
    simp [handlePanic, hu]

end server

namespace imagemeta

open xml

theorem lowerByte_eq_iff (b : Nat) (c : Nat) (hc : 97 ≤ c ∧ c ≤ 122) :
    lowerByte b = c ↔ b = c ∨ b + 32 = c := by
  unfold lowerByte
  split <;> omega

/-- Lower-casing gives `svg` exactly for the eight spellings of `svg` in either case. -/
theorem ToLower_eq_svg_iff (name : Bytes) : ToLower name = goBytes "svg" ↔ eqFoldSvg name := by
  have hsvg : goBytes "svg" = [115, 118, 103] := by decide
  rw [hsvg]
  unfold ToLower eqFoldSvg
  constructor
  · intro h
    match name, h with
    | [], h => simp at h
    | [_], h => simp at h
    | [_, _], h => simp at h
    | _ :: _ :: _ :: _ :: _, h => simp at h
    | [a, b, c], h =>
      simp only [List.map_cons, List.map_nil, List.cons.injEq, and_true] at h
      obtain ⟨ha, hb, hc⟩ := h
      refine ⟨a, b, c, rfl, ?_, ?_, ?_⟩
      · have := (lowerByte_eq_iff a 115 (by omega)).mp ha
        omega
      · have := (lowerByte_eq_iff b 118 (by omega)).mp hb
        omega
      · have := (lowerByte_eq_iff c 103 (by omega)).mp hc
        omega
  · rintro ⟨a, b, c, rfl, ha, hb, hc⟩
    simp only [List.map_cons, List.map_nil, List.cons.injEq, and_true]
    refine ⟨(lowerByte_eq_iff a 115 (by omega)).mpr (by omega),
      (lowerByte_eq_iff b 118 (by omega)).mpr (by omega),
      (lowerByte_eq_iff c 103 (by omega)).mpr (by omega)⟩

/-- Tokens that are neither start tags nor error tokens are skipped. -/
theorem loop_skip (err : ScanError) (pre rest : List (TokenType × Bytes))
    (h : ∀ t ∈ pre, ¬ stops t) : IsSVG.loop err (pre ++ rest) = IsSVG.loop err rest := by
  induction pre with
  | nil => rfl
  | cons t ts ih =>
    obtain ⟨tt, text⟩ := t
    have ht : ¬ stops (tt, text) := h _ (List.mem_cons_self _ _)
    have hts : ∀ u ∈ ts, ¬ stops u := fun u hu => h u (List.mem_cons_of_mem _ hu)
    rw [List.cons_append]
    cases tt <;> simp [stops] at ht <;> simp only [IsSVG.loop] <;> exact ih hts

theorem loop_start (err : ScanError) (name : Bytes) (rest : List (TokenType × Bytes)) :
    IsSVG.loop err ((TokenType.StartTagToken, name) :: rest) =
      (decide (ToLower name = goBytes "svg"), none) := by
  simp only [IsSVG.loop]

theorem loop_error (err : ScanError) (text : Bytes) (rest : List (TokenType × Bytes)) :
    IsSVG.loop err ((TokenType.ErrorToken, text) :: rest) = IsSVG.loop err [] := by
  simp only [IsSVG.loop]

theorem tokens_split (toks : List (TokenType × Bytes)) :
    (∀ t ∈ toks, ¬ stops t) ∨
    ∃ pre t rest, toks = pre ++ t :: rest ∧ (∀ u ∈ pre, ¬ stops u) ∧ stops t := by
  induction toks with
  | nil => left; simp
  | cons t ts ih =>
    by_cases ht : stops t
    · right
      exact ⟨[], t, ts, rfl, by simp, ht⟩
    · rcases ih with ih | ⟨pre, u, rest, rfl, hpre, hu⟩
      · left
        intro v hv
        rcases List.mem_cons.mp hv with rfl | hv
        · exact ht
        · exact ih v hv
      · right
        refine ⟨t :: pre, u, rest, rfl, ?_, hu⟩
        intro v hv
        rcases List.mem_cons.mp hv with rfl | hv
        · exact ht
        · exact hpre v hv

theorem loop_nil_fst (err : ScanError) : (IsSVG.loop err []).1 = false := by
  simp only [IsSVG.loop]
  split <;> rfl

theorem loop_true_iff (err : ScanError) (toks : List (TokenType × Bytes)) :
    IsSVG.loop err toks = (true, none) ↔
      ∃ pre name rest, toks = pre ++ (TokenType.StartTagToken, name) :: rest ∧
        (∀ t ∈ pre, ¬ stops t) ∧ eqFoldSvg name := by
  constructor
  · intro h
    rcases tokens_split toks with hall | ⟨pre, t, rest, rfl, hpre, ht⟩
    · have := loop_skip err toks [] hall
      rw [List.append_nil] at this
      rw [this] at h
      have h1 := loop_nil_fst err
      rw [h] at h1
      exact absurd h1 (by simp)
    · obtain ⟨tt, text⟩ := t
      rw [loop_skip err pre _ hpre] at h
      rcases ht with ht | ht
      · simp only at ht
        subst ht
        rw [loop_start] at h
        refine ⟨pre, text, rest, rfl, hpre, ?_⟩
        rw [← ToLower_eq_svg_iff]
        simpa using congrArg Prod.fst h
      · simp only at ht
        subst ht
        rw [loop_error] at h
        have h1 := loop_nil_fst err
        rw [h] at h1
        exact absurd h1 (by simp)
  · rintro ⟨pre, name, rest, rfl, hpre, hname⟩
    rw [loop_skip err pre _ hpre, loop_start]
    have := (ToLower_eq_svg_iff name).mpr hname
    simp [this]

/-- C9: over the tokens the lexer yields for the input cut at `config.MaxSvgCheckBytes`
bytes, `IsSVG` returns `(true, nil)` exactly when a start tag comes before any error token and
the first one is named `svg` up to case; `(false, nil)` when the first start tag has another
name or the input ends (end-of-input error) before any start tag; and `(false, err)` when
another scan error comes before any start tag. A lone `svg` start tag with an attribute is SVG,
an XML declaration followed by an `html` start tag is not, and no token at all gives
`(false, nil)`. -/
theorem IsSVG_classifies (cfg : config.Config) (NewLexer : Bytes → Lexer) (r : Bytes) :
    (IsSVG cfg NewLexer r = (true, none) ↔
      ∃ pre name rest,
        (NewLexer (r.take cfg.MaxSvgCheckBytes)).tokens =
          pre ++ (TokenType.StartTagToken, name) :: rest ∧
        (∀ t ∈ pre, ¬ stops t) ∧ eqFoldSvg name) ∧
    (∀ pre name rest,
        (NewLexer (r.take cfg.MaxSvgCheckBytes)).tokens =
          pre ++ (TokenType.StartTagToken, name) :: rest →
        (∀ t ∈ pre, ¬ stops t) → ¬ eqFoldSvg name →
        IsSVG cfg NewLexer r = (false, none)) ∧
    (((∀ t ∈ (NewLexer (r.take cfg.MaxSvgCheckBytes)).tokens, ¬ stops t) ∨
        ∃ pre text rest,
          (NewLexer (r.take cfg.MaxSvgCheckBytes)).tokens =
            pre ++ (TokenType.ErrorToken, text) :: rest ∧ (∀ t ∈ pre, ¬ stops t)) →
      ((NewLexer (r.take cfg.MaxSvgCheckBytes)).err = ScanError.EOF →
        IsSVG cfg NewLexer r = (false, none)) ∧
      (∀ msg, (NewLexer (r.take cfg.MaxSvgCheckBytes)).err = ScanError.Other msg →
        IsSVG cfg NewLexer r = (false, some (ScanError.Other msg)))) ∧
    ((NewLexer (r.take cfg.MaxSvgCheckBytes)) =
        { tokens := [(TokenType.StartTagToken, goBytes "svg"),
                     (TokenType.AttributeToken, goBytes "xmlns"),
                     (TokenType.StartTagCloseToken, goBytes ">")],
          err := ScanError.EOF } →
      IsSVG cfg NewLexer r = (true, none)) ∧
    ((NewLexer (r.take cfg.MaxSvgCheckBytes)) =
        { tokens := [(TokenType.StartTagPIToken, goBytes "xml"),
                     (TokenType.AttributeToken, goBytes "version"),
                     (TokenType.StartTagClosePIToken, goBytes "?>"),
                     (TokenType.StartTagToken, goBytes "html"),
                     (TokenType.StartTagCloseToken, goBytes ">")],
          err := ScanError.EOF } →
      IsSVG cfg NewLexer r = (false, none)) ∧
    ((NewLexer (r.take cfg.MaxSvgCheckBytes)) = { tokens := [], err := ScanError.EOF } →
      IsSVG cfg NewLexer r = (false, none)) := by
  refine ⟨loop_true_iff _ _, ?_, ?_, ?_, ?_, ?_⟩
  · intro pre name rest htoks hpre hname
    unfold IsSVG
    simp only [htoks]
    rw [loop_skip _ pre _ hpre, loop_start]
    have : ¬ ToLower name = goBytes "svg" := fun h => hname ((ToLower_eq_svg_iff name).mp h)
    simp [this]
  · intro hcase
    have hloop : IsSVG cfg NewLexer r =
        IsSVG.loop (NewLexer (r.take cfg.MaxSvgCheckBytes)).err [] := by
      unfold IsSVG
      rcases hcase with hall | ⟨pre, text, rest, htoks, hpre⟩
      · have := loop_skip (NewLexer (r.take cfg.MaxSvgCheckBytes)).err _ [] hall
        rw [List.append_nil] at this
        exact this
      · simp only [htoks]
        rw [loop_skip _ pre _ hpre, loop_error]
    constructor
    · intro he
      rw [hloop, he]
      simp [IsSVG.loop]
    · intro msg he
      rw [hloop, he]
      simp [IsSVG.loop]
  · intro hl
    unfold IsSVG
    simp only [hl]
    decide
  · intro hl
    unfold IsSVG
    simp only [hl]
    decide
  · intro hl
    unfold IsSVG
    simp only [hl]
    decide

end imagemeta
